import Mathlib

/-! The took credential tool: OIDC token acquisition (proto/oidc) and the
protocol registry (proto).

A shallow embedding of `proto/oidc/protocol.go`, `proto/oidc/validate.go` and
`proto/registry.go`.

* Go strings are Lean `String`s; the integer option types `RefreshOption` and
  `OutputOption` are `Int`s with named constants.
* A `*TokenData` pointing into `p.Tokens.Tokens` is an index into the list of
  records; writes through the pointer are `List.set` at that index.
* Everything outside the package (JWT parsing and verification, key discovery,
  the OAuth2 client, prompts, the random source, the clock) is a field of `Env`.
* `log.Fatal` terminates the process: a run is an `Outcome` whose `result` is
  `Except.error` with the in-memory store at that moment.
* Every call to a collaborator is recorded, in order, in the `trace` of the run.
-/

namespace Took

/-! ## proto: option constants -/

/-- The Go type `proto.RefreshOption` (an `int`). -/
abbrev RefreshOption := Int

/-- Constant `proto.UseDefault` (iota 0). -/
def UseDefault : RefreshOption := 0

/-- Constant `proto.UseRefresh` (iota 1). -/
def UseRefresh : RefreshOption := 1

/-- Constant `proto.UseReAuth` (iota 2). -/
def UseReAuth : RefreshOption := 2

/-- The Go type `proto.OutputOption` (an `int`). -/
abbrev OutputOption := Int

/-- Constant `proto.OutputToken` (iota 0). -/
def OutputToken : OutputOption := 0

/-- Constant `proto.OutputHeader` (iota 1). -/
def OutputHeader : OutputOption := 1

/-- Modelled from the spec: `proto.TokenRequest` is declared outside the given
sources; it carries an optional username, an optional plaintext password, a
refresh policy and an output selector (the four fields `GetToken` reads). -/
structure TokenRequest where
  Username : String := ""
  Password : String := ""
  Refresh : RefreshOption := 0
  Out : OutputOption := 0
  deriving DecidableEq, Repr

/-! ## proto/oidc: data model -/

/-- Modelled from the spec: `HTMLFormConfig` is declared outside the given
sources; the orchestrator only tests its presence and hands it to `FormAuth`. -/
structure HTMLFormConfig where
  descriptor : String := ""
  deriving DecidableEq, Repr

/-- The struct `Config`; the pointer field `Form` is an `Option`. -/
structure Config where
  ClientId : String := ""
  ClientSecret : String := ""
  URL : String := ""
  CallbackURL : String := ""
  TokenAPI : String := ""
  AuthAPI : String := ""
  PasswordGrant : Bool := false
  Form : Option HTMLFormConfig := none
  deriving DecidableEq, Repr

/-- The struct `TokenData`: one credential record (`Type_` is the Go field
`Type`, a reserved word here). -/
structure TokenData where
  Username : String := ""
  AccessToken : String := ""
  RefreshToken : String := ""
  Type_ : String := ""
  deriving DecidableEq, Repr

instance : Inhabited TokenData := ⟨{}⟩

/-- The struct `Data`: the records and the last used username. -/
structure Data where
  Last : String := ""
  Tokens : List TokenData := []
  deriving DecidableEq, Repr

/-- The struct `Protocol`. -/
structure Protocol where
  Cfg : Config := {}
  Defaults : Config := {}
  Tokens : Data := {}
  deriving DecidableEq, Repr

/-- The loop of `findUser` over the records from position `i` on. -/
def findUserFrom : List TokenData → String → Nat → Option Nat
  | [], _, _ => none
  | x :: xs, username, i =>
      if x.Username = username then some i else findUserFrom xs username (i + 1)

/-- The method `Data.findUser`: the position of the first record with that
username (the Go code returns the address of that element), or `none`. -/
def Data.findUser (d : Data) (username : String) : Option Nat :=
  findUserFrom d.Tokens username 0

/-- The element a record pointer refers to. -/
def Data.tokAt (d : Data) (i : Nat) : TokenData :=
  d.Tokens.getD i {}

/-- The closure `wdef` inside `Merge`. -/
def wdef (s d : String) : String :=
  if s.length > 0 then s else d

/-- The method `Config.Merge`: sets the unset fields of `c` from `defaults`. -/
def Config.Merge (c defaults : Config) : Config :=
  let ret : Config :=
    { ClientId := wdef c.ClientId defaults.ClientId
      ClientSecret := wdef c.ClientSecret defaults.ClientSecret
      URL := wdef c.URL defaults.URL
      CallbackURL := wdef c.CallbackURL defaults.CallbackURL
      TokenAPI := wdef c.TokenAPI defaults.TokenAPI
      AuthAPI := wdef c.AuthAPI defaults.AuthAPI }
  let ret := { ret with PasswordGrant := c.PasswordGrant }
  match c.Form with
  | some f => { ret with Form := some f }
  | none => { ret with Form := defaults.Form }

/-- The method `Protocol.ConfigWithDefaults`. -/
def Protocol.ConfigWithDefaults (p : Protocol) : Config :=
  p.Cfg.Merge p.Defaults

/-- The function `combine`: joins a base URL and a path suffix. -/
def combine (base suffix : String) : String :=
  let suffix := if suffix.data.head? = some '/' then String.mk (suffix.data.drop 1) else suffix
  let base := if base.data.getLast? = some '/' then base else base ++ "/"
  base ++ suffix

/-- The method `Protocol.GetTokenURL`. -/
def Protocol.GetTokenURL (p : Protocol) : String :=
  let cfg := p.ConfigWithDefaults
  let token := if cfg.TokenAPI = "" then "protocol/openid-connect/token" else cfg.TokenAPI
  combine cfg.URL token

/-- The method `Protocol.GetAuthURL`. -/
def Protocol.GetAuthURL (p : Protocol) : String :=
  let cfg := p.ConfigWithDefaults
  let auth := if cfg.AuthAPI = "" then "protocol/openid-connect/auth" else cfg.AuthAPI
  combine cfg.URL auth

/-! ## net/http: canonical header keys -/

/-- Go's `validHeaderFieldByte`: the RFC 7230 token characters. -/
def validHeaderFieldByte (c : Char) : Bool :=
  let n := c.toNat
  (48 ≤ n && n ≤ 57) || (65 ≤ n && n ≤ 90) || (94 ≤ n && n ≤ 122) ||
    n = 33 || (35 ≤ n && n ≤ 39) || n = 42 || n = 43 || n = 45 || n = 46 ||
    n = 124 || n = 126

/-- The canonicalising loop: upper case at the start and after each dash,
lower case elsewhere. -/
def canonLoop : Bool → List Char → List Char
  | _, [] => []
  | upper, c :: cs =>
      let c1 :=
        if upper && decide (97 ≤ c.toNat ∧ c.toNat ≤ 122) then Char.ofNat (c.toNat - 32)
        else if !upper && decide (65 ≤ c.toNat ∧ c.toNat ≤ 90) then Char.ofNat (c.toNat + 32)
        else c
      c1 :: canonLoop (c1 = '-') cs

/-- Go's `http.CanonicalHeaderKey`: a string holding a byte that is not a
header field byte is returned unchanged, any other is canonicalised. -/
def CanonicalHeaderKey (s : String) : String :=
  if s.data.all validHeaderFieldByte then String.mk (canonLoop true s.data) else s

/-- The method `TokenData.FormatToken`. -/
def TokenData.FormatToken (t : TokenData) (out : OutputOption) : String :=
  if out = OutputHeader then
    "Authorization: " ++ CanonicalHeaderKey t.Type_ ++ " " ++ t.AccessToken
  else t.AccessToken

/-! ## External collaborators -/

/-- The type `jwt.JSONWebToken` of go-jose: a parsed signed token. -/
structure JSONWebToken where
  compact : String := ""
  deriving DecidableEq, Repr

/-- The server data returned by `GetServerData`; only the public key is used. -/
structure ServerData where
  PK : String := ""
  deriving DecidableEq, Repr

/-- The type `jwt.Claims` of go-jose; the zero value has every field empty. -/
structure Claims where
  Issuer : String := ""
  Subject : String := ""
  Audience : List String := []
  Expiry : Option Int := none
  NotBefore : Option Int := none
  IssuedAt : Option Int := none
  ID : String := ""
  deriving DecidableEq, Repr

/-- The type `oauth2.Token`, restricted to the fields the package reads. -/
structure OAuthToken where
  AccessToken : String := ""
  TokenType : String := ""
  RefreshToken : String := ""
  deriving DecidableEq, Repr

/-- The types `oauth2.Config` and `oauth2.Endpoint`, flattened. -/
structure OAuthConfig where
  ClientID : String := ""
  ClientSecret : String := ""
  Scopes : List String := []
  RedirectURL : String := ""
  AuthURL : String := ""
  TokenURL : String := ""
  deriving DecidableEq, Repr

/-- A parsed `url.URL`, restricted to its query parameters in order. -/
structure URL where
  query : List (String × String) := []
  deriving DecidableEq, Repr

/-- The call `u.Query().Get(key)`: the first value of `key`, else the empty
string. -/
def URL.queryGet (u : URL) (key : String) : String :=
  match u.query.find? (fun kv => kv.1 = key) with
  | some kv => kv.2
  | none => ""

/-- Everything `GetToken` and `Validate` call outside this package. Errors of
the collaborators are their messages. -/
structure Env where
  /-- The call `jwt.ParseSigned`: `none` when the returned token is nil. -/
  parseSigned : String → Option JSONWebToken
  /-- The call `GetServerData`. -/
  getServerData : String → Except String ServerData
  /-- The call `token.Claims(key, &claims)` on the zero-valued `claims`: the
  contents of `claims` after the call, and the error if there is one. A
  signature error leaves `claims` untouched; a payload error leaves in it what
  was decoded before the error. -/
  tokenClaims : JSONWebToken → String → Claims × Option String
  /-- The reading of `time.Now()`, in seconds. -/
  now : Int
  /-- The call `claims.Validate(jwt.Expected{Time: now})`: `true` for nil. -/
  claimsValidate : Claims → Int → Bool
  /-- The call `RefreshToken(clientId, clientSecret, refreshToken, tokenURL)`. -/
  refreshToken : String → String → String → String → Except String OAuthToken
  /-- The call `rand.Uint64()`. -/
  randUint64 : Nat
  /-- The call `proto.AskPassword()`. -/
  askPassword : String
  /-- The call `conf.PasswordCredentialsToken(ctx, userName, password)`. -/
  passwordCredentialsToken : OAuthConfig → String → String → Except String OAuthToken
  /-- The call `conf.AuthCodeURL(state, oauth2.AccessTypeOnline)`. -/
  authCodeURL : OAuthConfig → String → String
  /-- The call `FormAuth(form, authUrl, userName, password)`: `none` for nil. -/
  formAuth : HTMLFormConfig → String → String → String → Option URL
  /-- The call `proto.Ask(label)`. -/
  ask : String → String
  /-- The call `url.Parse`. -/
  urlParse : String → Except String URL
  /-- The call `conf.Exchange(ctx, code)`. -/
  exchange : OAuthConfig → String → Except String OAuthToken

/-- The calls to collaborators that a run can make. -/
inductive Event where
  /-- A call of `Validate(accessToken, serverUrl)`. -/
  | validate (accessToken serverUrl : String)
  /-- A call of `p.Refresh(tok)`, with the refresh token and the token URL. -/
  | refresh (refreshToken tokenURL : String)
  /-- A call of `proto.AskPassword()`. -/
  | askPassword
  /-- A call of `conf.PasswordCredentialsToken`. -/
  | passwordExchange (userName password : String)
  /-- A call of `FormAuth`. -/
  | formAuth (authUrl userName password : String)
  /-- A call of `proto.Ask`. -/
  | ask (authUrl : String)
  /-- A call of `conf.Exchange`. -/
  | exchange (code : String)
  deriving DecidableEq, Repr

/-- The event is a step of full authentication. -/
def Event.isFullAuth : Event → Bool
  | .validate _ _ => false
  | .refresh _ _ => false
  | _ => true

/-- The event is a call of `Validate`. -/
def Event.isValidate : Event → Bool
  | .validate _ _ => true
  | _ => false

/-- The event is a call of `Refresh`. -/
def Event.isRefresh : Event → Bool
  | .refresh _ _ => true
  | _ => false

/-- The event is a call of `conf.Exchange`. -/
def Event.isExchange : Event → Bool
  | .exchange _ => true
  | _ => false

/-- The ways a run ends in `log.Fatal`. -/
inductive Fatal where
  /-- From `log.Fatalf("Username is required for oidc quth")`. -/
  | missingUsername
  /-- From `log.Fatalf("Cannot get server info for %s: %s", serverUrl, err)`. -/
  | serverInfo (serverUrl err : String)
  /-- From `log.Fatal(err)` after `PasswordCredentialsToken`. -/
  | passwordGrant (err : String)
  /-- From `log.Fatal(err.Error())` after `url.Parse`. -/
  | urlParse (err : String)
  /-- From `log.Fatal("Invalid state")`. -/
  | invalidState
  /-- From `log.Fatal(err)` after `conf.Exchange`. -/
  | exchange (err : String)
  deriving DecidableEq, Repr

/-- A run of `GetToken`: the returned string or the fatal error, the store
`p.Tokens` at that moment, and the calls made, in order. -/
structure Outcome where
  result : Except Fatal String
  store : Data
  trace : List Event

/-- The same outcome after the calls `pre`. -/
def Outcome.after (pre : List Event) (o : Outcome) : Outcome :=
  { o with trace := pre ++ o.trace }

/-! ## proto/oidc/validate.go -/

/-- The function `Validate`: `Except.error` is the `log.Fatalf` exit. The error
returned by `token.Claims` is dropped, as in the source: the claims validated
are whatever the call left in `claims`. -/
def Validate (env : Env) (accessToken serverUrl : String) : Except Fatal Bool :=
  match env.parseSigned accessToken with
  | some token =>
      match env.getServerData serverUrl with
      | .error err => .error (.serverInfo serverUrl err)
      | .ok svc =>
          let claims : Claims := (env.tokenClaims token svc.PK).1
          if env.claimsValidate claims env.now then .ok true else .ok false
  | none => .ok false

/-! ## proto/oidc/protocol.go: Refresh and GetToken -/

/-- The method `Protocol.Refresh` on the record at index `i`: the store with
the record updated, or the error of `RefreshToken`. -/
def Protocol.Refresh (env : Env) (p : Protocol) (d : Data) (i : Nat) : Except String Data :=
  let cfg := p.ConfigWithDefaults
  let tok := d.tokAt i
  match env.refreshToken cfg.ClientId cfg.ClientSecret tok.RefreshToken p.GetTokenURL with
  | .error err => .error err
  | .ok t =>
      let tok1 : TokenData :=
        { tok with AccessToken := t.AccessToken, RefreshToken := t.RefreshToken,
                   Type_ := t.TokenType }
      .ok { d with Tokens := d.Tokens.set i tok1 }

/-- The lowercase hexadecimal text of `fmt.Sprintf("%x", n)`. -/
def sprintfHex (n : Nat) : String :=
  String.mk (Nat.toDigits 16 n)

/-- The end of `GetToken` (lines 200-204): store the token in the record and
return it formatted. -/
def storeToken (request : TokenRequest) (d : Data) (i : Nat) (token : OAuthToken)
    (tr : List Event) : Outcome :=
  let tok : TokenData :=
    { d.tokAt i with AccessToken := token.AccessToken, RefreshToken := token.RefreshToken,
                     Type_ := token.TokenType }
  { result := .ok (tok.FormatToken request.Out)
    store := { d with Tokens := d.Tokens.set i tok }
    trace := tr }

/-- The full authentication part of `GetToken` (lines 150-204), on the store
`d` with the record pointer `i`. -/
def Protocol.fullAuth (env : Env) (p : Protocol) (request : TokenRequest) (d : Data) (i : Nat)
    (userName : String) : Outcome :=
  let cfg := p.ConfigWithDefaults
  let conf : OAuthConfig :=
    { ClientID := cfg.ClientId
      ClientSecret := cfg.ClientSecret
      Scopes := ["openid"]
      RedirectURL := cfg.CallbackURL
      AuthURL := p.GetAuthURL
      TokenURL := p.GetTokenURL }
  let state := sprintfHex (env.randUint64 % 2 ^ 64)
  if cfg.PasswordGrant then
    let password := if request.Password.length > 0 then request.Password else env.askPassword
    let tr : List Event := if request.Password.length > 0 then [] else [.askPassword]
    match env.passwordCredentialsToken conf userName password with
    | .error err =>
        ⟨.error (.passwordGrant err), d, tr ++ [.passwordExchange userName password]⟩
    | .ok token => storeToken request d i token (tr ++ [.passwordExchange userName password])
  else
    let authUrl := env.authCodeURL conf state
    let redirectedUrl : Option URL :=
      match cfg.Form with
      | some form => env.formAuth form authUrl userName request.Password
      | none => none
    let tr : List Event :=
      match cfg.Form with
      | some _ => [.formAuth authUrl userName request.Password]
      | none => []
    match redirectedUrl with
    | some u =>
        match env.exchange conf (u.queryGet "code") with
        | .error err => ⟨.error (.exchange err), d, tr ++ [.exchange (u.queryGet "code")]⟩
        | .ok token => storeToken request d i token (tr ++ [.exchange (u.queryGet "code")])
    | none =>
        let inUrl := env.ask "After authentication, copy/paste the URL here:"
        match env.urlParse inUrl with
        | .error err => ⟨.error (.urlParse err), d, tr ++ [.ask authUrl]⟩
        | .ok u =>
            if state ≠ u.queryGet "state" then ⟨.error .invalidState, d, tr ++ [.ask authUrl]⟩
            else
              match env.exchange conf (u.queryGet "code") with
              | .error err =>
                  ⟨.error (.exchange err), d, tr ++ [.ask authUrl, .exchange (u.queryGet "code")]⟩
              | .ok token =>
                  storeToken request d i token
                    (tr ++ [.ask authUrl, .exchange (u.queryGet "code")])

/-- The effective username of a request (lines 113-116). -/
def effectiveUser (p : Protocol) (request : TokenRequest) : String :=
  if request.Username = "" then p.Tokens.Last else request.Username

/-- The lookup-or-append of `GetToken` (lines 122-129): the store with a record
for `userName` and `Last` set to its username, and the record pointer. -/
def getOrCreate (d : Data) (userName : String) : Data × Nat :=
  match d.findUser userName with
  | some i => ({ d with Last := (d.tokAt i).Username }, i)
  | none =>
      (Data.mk userName (d.Tokens ++ [({ Username := userName } : TokenData)]), d.Tokens.length)

/-- The method `Protocol.GetToken`. -/
def Protocol.GetToken (env : Env) (p : Protocol) (request : TokenRequest) : Outcome :=
  let cfg := p.ConfigWithDefaults
  let userName := effectiveUser p request
  if userName = "" then ⟨.error .missingUsername, p.Tokens, []⟩
  else
    let d := (getOrCreate p.Tokens userName).1
    let i := (getOrCreate p.Tokens userName).2
    let tok := d.tokAt i
    if request.Refresh ≠ UseReAuth then
      if tok.AccessToken ≠ "" then
        match Validate env tok.AccessToken cfg.URL with
        | .error f => ⟨.error f, d, [.validate tok.AccessToken cfg.URL]⟩
        | .ok valid =>
            if valid = true ∧ request.Refresh ≠ UseRefresh then
              ⟨.ok (tok.FormatToken request.Out), d, [.validate tok.AccessToken cfg.URL]⟩
            else if tok.RefreshToken ≠ "" then
              match p.Refresh env d i with
              | .ok d1 =>
                  ⟨.ok ((d1.tokAt i).FormatToken request.Out), d1,
                    [.validate tok.AccessToken cfg.URL, .refresh tok.RefreshToken p.GetTokenURL]⟩
              | .error _ =>
                  (p.fullAuth env request d i userName).after
                    [.validate tok.AccessToken cfg.URL, .refresh tok.RefreshToken p.GetTokenURL]
            else (p.fullAuth env request d i userName).after [.validate tok.AccessToken cfg.URL]
      else p.fullAuth env request d i userName
    else p.fullAuth env request d i userName

/-! ## Reference definition of the merge, after the specification -/

/-- The merge as the specification words it: a string field is the instance
field when that is non-empty, else the defaults field. -/
def specField (inst dflt : String) : String :=
  if inst ≠ "" then inst else dflt

/-- The merge as the specification words it: six string fields by `specField`,
the grant-type flag from the instance, the form descriptor wholly from the
instance when present, else wholly from the defaults. -/
def mergeSpec (c d : Config) : Config :=
  { ClientId := specField c.ClientId d.ClientId
    ClientSecret := specField c.ClientSecret d.ClientSecret
    URL := specField c.URL d.URL
    CallbackURL := specField c.CallbackURL d.CallbackURL
    TokenAPI := specField c.TokenAPI d.TokenAPI
    AuthAPI := specField c.AuthAPI d.AuthAPI
    PasswordGrant := c.PasswordGrant
    Form := if c.Form.isSome then c.Form else d.Form }

/-! ## A concrete world, for evaluating the definitions -/

/-- The check `Claims.ValidateWithLeeway(Expected{Time: now}, leeway)` of
go-jose v2 (2.5 and later): only the time-bound claims are compared, and a
claim that is absent (a nil pointer) is not checked. -/
def Claims.ValidateWithLeeway (c : Claims) (now leeway : Int) : Bool :=
  let notYet := match c.NotBefore with
    | some nbf => decide (now + leeway < nbf)
    | none => false
  let expired := match c.Expiry with
    | some exp => decide (exp < now - leeway)
    | none => false
  let future := match c.IssuedAt with
    | some iat => decide (now + leeway < iat)
    | none => false
  !(notYet || expired || future)

/-- The token a sample provider issues. -/
def sampleToken (access refresh : String) : OAuthToken :=
  { AccessToken := access, TokenType := "bearer", RefreshToken := refresh }

/-- A sample world. The provider at `https://idp.example` signs `good.jwt`
(valid until 2000) and `old.jwt` (expired at 10); `forged.jwt` parses but its
signature does not verify; the clock reads 1000. Refresh token `r1` is
accepted, password `pw` is accepted, code `c0de` is accepted. The operator
pastes `paste`, which parses to a redirect with state `2a` (the state that is
generated) and code `c0de`. -/
def sampleEnv : Env where
  parseSigned := fun s =>
    if s = "good.jwt" ∨ s = "old.jwt" ∨ s = "forged.jwt" then some ⟨s⟩ else none
  getServerData := fun url =>
    if url = "https://idp.example" then .ok ⟨"pk"⟩ else .error "no such host"
  tokenClaims := fun t pk =>
    if pk = "pk" ∧ t.compact = "good.jwt" then
      ({ Subject := "alice", NotBefore := some 0, Expiry := some 2000 }, none)
    else if pk = "pk" ∧ t.compact = "old.jwt" then
      ({ Subject := "alice", NotBefore := some 0, Expiry := some 10 }, none)
    else ({}, some "square/go-jose: error in cryptographic primitive")
  now := 1000
  claimsValidate := fun c now => c.ValidateWithLeeway now 60
  refreshToken := fun _ _ r _ =>
    if r = "r1" then .ok (sampleToken "fresh.jwt" "r2") else .error "invalid_grant"
  randUint64 := 42
  askPassword := "pw"
  passwordCredentialsToken := fun _ _ pw =>
    if pw = "pw" then .ok (sampleToken "new.jwt" "r9") else .error "invalid_grant"
  authCodeURL := fun conf state => conf.AuthURL ++ "?state=" ++ state
  formAuth := fun form _ _ _ =>
    if form.descriptor = "works" then some ⟨[("state", "attacker"), ("code", "c0de")]⟩
    else none
  ask := fun _ => "paste"
  urlParse := fun s =>
    if s = "paste" then .ok ⟨[("state", "2a"), ("code", "c0de")]⟩ else .error "parse error"
  exchange := fun _ code =>
    if code = "c0de" then .ok (sampleToken "new.jwt" "r9") else .error "invalid_grant"

/-- The sample world with a provider that rejects every password and code. -/
def rejectingEnv : Env :=
  { sampleEnv with
    passwordCredentialsToken := fun _ _ _ => .error "invalid_grant"
    exchange := fun _ _ => .error "invalid_grant" }

/-- The sample world with an operator who pastes a redirect of another
request (state `ffff`). -/
def mismatchEnv : Env :=
  { sampleEnv with urlParse := fun _ => .ok ⟨[("state", "ffff"), ("code", "c0de")]⟩ }

/-- A password-grant configuration for the sample provider. -/
def passwordCfg : Config :=
  { ClientId := "cli", URL := "https://idp.example", PasswordGrant := true }

/-- An authorization-code configuration for the sample provider. -/
def codeCfg : Config :=
  { ClientId := "cli", URL := "https://idp.example", CallbackURL := "http://localhost/cb" }

/-- An authorization-code configuration with automated form login. -/
def formCfg : Config :=
  { codeCfg with Form := some { descriptor := "works" } }

/-- A record for `alice`. -/
def aliceRecord (access refresh : String) : TokenData :=
  { Username := "alice", AccessToken := access, RefreshToken := refresh, Type_ := "bearer" }

/-- A protocol instance with configuration `cfg`, a record for `bob` and the
given record for `alice`, last used by `alice`. -/
def sampleProtocol (cfg : Config) (access refresh : String) : Protocol :=
  { Cfg := cfg
    Tokens := { Last := "alice"
                Tokens := [{ Username := "bob", AccessToken := "b.jwt" },
                           aliceRecord access refresh] } }

/-! ## proto/oidc/protocol.go: the token acquisition of full authentication -/

/-- The value `conf` that `GetToken` builds (lines 150-157). -/
def Protocol.oauthConf (p : Protocol) : OAuthConfig :=
  { ClientID := p.ConfigWithDefaults.ClientId
    ClientSecret := p.ConfigWithDefaults.ClientSecret
    Scopes := ["openid"]
    RedirectURL := p.ConfigWithDefaults.CallbackURL
    AuthURL := p.GetAuthURL
    TokenURL := p.GetTokenURL }

/-- The password `GetToken` uses for the password grant (lines 164-169). -/
def grantPassword (env : Env) (request : TokenRequest) : String :=
  if request.Password.length > 0 then request.Password else env.askPassword

/-- Lines 158-198 of `GetToken` on their own: the token that full
authentication obtains, or the fatal error, with the calls made. -/
def Protocol.authToken (env : Env) (p : Protocol) (request : TokenRequest) (userName : String) :
    Except Fatal OAuthToken × List Event :=
  let cfg := p.ConfigWithDefaults
  let conf := p.oauthConf
  let state := sprintfHex (env.randUint64 % 2 ^ 64)
  if cfg.PasswordGrant then
    let password := grantPassword env request
    let tr : List Event := if request.Password.length > 0 then [] else [.askPassword]
    match env.passwordCredentialsToken conf userName password with
    | .error err => (.error (.passwordGrant err), tr ++ [.passwordExchange userName password])
    | .ok token => (.ok token, tr ++ [.passwordExchange userName password])
  else
    let authUrl := env.authCodeURL conf state
    let redirectedUrl : Option URL :=
      match cfg.Form with
      | some form => env.formAuth form authUrl userName request.Password
      | none => none
    let tr : List Event :=
      match cfg.Form with
      | some _ => [.formAuth authUrl userName request.Password]
      | none => []
    match redirectedUrl with
    | some u =>
        match env.exchange conf (u.queryGet "code") with
        | .error err => (.error (.exchange err), tr ++ [.exchange (u.queryGet "code")])
        | .ok token => (.ok token, tr ++ [.exchange (u.queryGet "code")])
    | none =>
        let inUrl := env.ask "After authentication, copy/paste the URL here:"
        match env.urlParse inUrl with
        | .error err => (.error (.urlParse err), tr ++ [.ask authUrl])
        | .ok u =>
            if state ≠ u.queryGet "state" then (.error .invalidState, tr ++ [.ask authUrl])
            else
              match env.exchange conf (u.queryGet "code") with
              | .error err =>
                  (.error (.exchange err), tr ++ [.ask authUrl, .exchange (u.queryGet "code")])
              | .ok token => (.ok token, tr ++ [.ask authUrl, .exchange (u.queryGet "code")])

/-! ## proto/registry.go -/

/-- A value of the Go type `func() Protocol`: `none` is the nil func, and the
interface value it returns is `none` when nil. -/
abbrev Factory (P : Type) := Option (Unit → Option P)

/-- The package variable `protocols`, a `map[string]func() Protocol`. -/
abbrev Registry (P : Type) := String → Option (Factory P)

/-- The initial value `make(map[string]func() Protocol)`. -/
def emptyRegistry (P : Type) : Registry P := fun _ => none

/-- The function `Register`: `protocols[name] = factory`. -/
def Register {P : Type} (protocols : Registry P) (name : String) (factory : Factory P) :
    Registry P :=
  fun k => if k = name then some factory else protocols k

/-- A call `p()` of a factory: calling the nil func panics. -/
def invoke {P : Type} (factory : Factory P) : Except String (Option P) :=
  match factory with
  | some f => .ok (f ())
  | none => .error "invalid memory address or nil pointer dereference"

/-- The function `Get`: the instance built by the registered factory, else nil. -/
def Get {P : Type} (protocols : Registry P) (name : String) : Except String (Option P) :=
  match protocols name with
  | some p => invoke p
  | none => .ok none

/-- A sequence of `Register` calls, in order. -/
def registerAll {P : Type} (protocols : Registry P) : List (String × Factory P) → Registry P
  | [] => protocols
  | (name, factory) :: rest => registerAll (Register protocols name factory) rest

/-- The registry after `init` of package oidc: both names build `&Protocol{}`. -/
def oidcRegistry : Registry Protocol :=
  Register (Register (emptyRegistry Protocol) "oidc-auth" (some fun _ => some {})) "oidc"
    (some fun _ => some {})

/-! ## Reference definitions of the endpoint construction, after the
specification -/

/-- The text with all leading separators removed. -/
def trimLeadingSlashes (l : List Char) : List Char :=
  l.dropWhile (fun c => c = '/')

/-- The text with all trailing separators removed. -/
def trimTrailingSlashes (l : List Char) : List Char :=
  (l.reverse.dropWhile (fun c => c = '/')).reverse

/-- The join as the specification words it: the base without trailing
separators, one separator, the suffix without leading separators. -/
def combineSpec (base suffix : String) : String :=
  String.mk (trimTrailingSlashes base.data ++ ['/'] ++ trimLeadingSlashes suffix.data)

/-! ## Reference definitions of the header format, after the specification -/

/-- The characters of an HTTP header name (the token characters of RFC 7230):
letters, digits and fifteen punctuation marks, the last two being the
apostrophe and the grave accent. -/
def tokenAlphabet : List Char :=
  "abcdefghijklmnopqrstuvwxyzABCDEFGHIJKLMNOPQRSTUVWXYZ0123456789!#$%&*+-.^_|~".data ++
    [Char.ofNat 39, Char.ofNat 96]

/-- The text is made of header-name characters only. -/
def isTokenText (s : String) : Prop :=
  ∀ c ∈ s.data, c ∈ tokenAlphabet

instance (s : String) : Decidable (isTokenText s) :=
  inferInstanceAs (Decidable (∀ c ∈ s.data, c ∈ tokenAlphabet))

/-- The words of a text, separated by dashes. -/
def splitDash : List Char → List (List Char)
  | [] => [[]]
  | c :: cs =>
      if c = '-' then [] :: splitDash cs
      else
        match splitDash cs with
        | [] => [[c]]
        | w :: ws => (c :: w) :: ws

/-- A word with its first letter in upper case and its other letters in lower
case. -/
def capitalizeWord : List Char → List Char
  | [] => []
  | c :: cs => c.toUpper :: cs.map Char.toLower

/-- The words joined by dashes. -/
def joinDash : List (List Char) → List Char
  | [] => []
  | [w] => w
  | w :: ws => w ++ '-' :: joinDash ws

/-- Canonical capitalization: every dash-separated word capitalized, as in
`Bearer` or `Content-Type`. -/
def canonicalCapitalization (s : String) : String :=
  String.mk (joinDash ((splitDash s.data).map capitalizeWord))

/-- The words of a text whose first word starts the text (`upper`) or continues
a word begun before it. -/
def caseWords (upper : Bool) : List (List Char) → List (List Char)
  | [] => []
  | w :: ws => (if upper then capitalizeWord w else w.map Char.toLower) :: ws.map capitalizeWord

/-! ## Theorems -/

/-- A string has positive length exactly when it is not the empty string. -/
theorem length_pos_iff_ne_empty (s : String) : s.length > 0 ↔ s ≠ "" := by
  constructor
  · intro h hs
    subst hs
    simp at h
  · intro h
    rcases s with ⟨l⟩
    cases l with
    | nil => exact absurd rfl h
    | cons a t => simp [String.length]

/-- The closure `wdef` agrees with the field rule of the specification. -/
theorem wdef_eq_specField (s d : String) : wdef s d = specField s d := by
  unfold wdef specField
  by_cases h : s = ""
  · subst h; simp
  · have := (length_pos_iff_ne_empty s).2 h
    simp [h, this]

/-- Claim C3: for all configs `c` and `d`, `c.Merge(d)` equals the reference
definition: each of the six string fields is the field of `c` when non-empty
and the field of `d` otherwise, `PasswordGrant` is that of `c`, and `Form` is
that of `c` when present and that of `d` otherwise. -/
theorem Merge_eq_mergeSpec (c d : Config) : c.Merge d = mergeSpec c d := by
  unfold Config.Merge mergeSpec
  cases hf : c.Form <;> simp [wdef_eq_specField]

/-- When the token parses and the key resolves, the verdict of `Validate` is
the verdict of the library on what `token.Claims` left in `claims`, whether or
not that call returned an error. -/
theorem Validate_parsed (env : Env) (accessToken serverUrl : String)
    (token : JSONWebToken) (svc : ServerData)
    (hp : env.parseSigned accessToken = some token)
    (hk : env.getServerData serverUrl = .ok svc) :
    Validate env accessToken serverUrl =
      .ok (env.claimsValidate (env.tokenClaims token svc.PK).1 env.now) := by
  unfold Validate
  simp only [hp, hk]
  cases env.claimsValidate (env.tokenClaims token svc.PK).1 env.now <;> simp

/-- When the token parses and the key resolves but `token.Claims` fails on the
signature, the verdict of `Validate` is the verdict of the library on
zero-valued claims: it does not depend on the token. -/
theorem Validate_signature_error (env : Env) (accessToken serverUrl : String)
    (token : JSONWebToken) (svc : ServerData) (err : String)
    (hp : env.parseSigned accessToken = some token)
    (hk : env.getServerData serverUrl = .ok svc)
    (hs : env.tokenClaims token svc.PK = ({}, some err)) :
    Validate env accessToken serverUrl = .ok (env.claimsValidate {} env.now) := by
  rw [Validate_parsed env accessToken serverUrl token svc hp hk, hs]

/-- Claim C2, evaluated where it fails: `forged.jwt` parses, the key resolves,
`token.Claims` reports a signature error, and `Validate` returns true. -/
theorem Validate_forged_accepted :
    sampleEnv.parseSigned "forged.jwt" = some ⟨"forged.jwt"⟩ ∧
    sampleEnv.getServerData "https://idp.example" = .ok ⟨"pk"⟩ ∧
    sampleEnv.tokenClaims ⟨"forged.jwt"⟩ "pk" =
      ({}, some "square/go-jose: error in cryptographic primitive") ∧
    Validate sampleEnv "forged.jwt" "https://idp.example" = .ok true :=
  ⟨rfl, rfl, rfl, rfl⟩


/-- A position returned by the loop of `findUser` is in range and holds a
record with the username looked for. -/
theorem findUserFrom_some (l : List TokenData) (u : String) (k i : Nat)
    (h : findUserFrom l u k = some i) :
    k ≤ i ∧ i - k < l.length ∧ (l.getD (i - k) {}).Username = u := by
  induction l generalizing k with
  | nil => simp [findUserFrom] at h
  | cons x xs ih =>
    unfold findUserFrom at h
    by_cases hx : x.Username = u
    · simp [hx] at h
      subst h
      simp [hx]
    · simp [hx] at h
      obtain ⟨h1, h2, h3⟩ := ih (k + 1) h
      have hk : i - k = (i - (k + 1)) + 1 := by omega
      refine ⟨by omega, ?_, ?_⟩
      · simp only [List.length_cons]; omega
      · rw [hk]; simpa using h3

/-- A pointer returned by `findUser` is in range and its record has the
username looked for. -/
theorem findUser_some (d : Data) (u : String) (i : Nat) (h : d.findUser u = some i) :
    i < d.Tokens.length ∧ (d.tokAt i).Username = u := by
  have := findUserFrom_some d.Tokens u 0 i h
  simpa [Data.tokAt] using this.2

/-- Setting `Last` does not change any record. -/
theorem tokAt_withLast (d : Data) (u : String) (i : Nat) :
    ({ d with Last := u } : Data).tokAt i = d.tokAt i := rfl

/-- Lookup-or-create on a store that has the username: only `Last` is set. -/
theorem getOrCreate_found (d : Data) (u : String) (i : Nat) (h : d.findUser u = some i) :
    getOrCreate d u = ({ d with Last := u }, i) := by
  unfold getOrCreate
  simp [h, (findUser_some d u i h).2]

/-- Lookup-or-create on a store without the username: one empty record is
appended and `Last` is set. -/
theorem getOrCreate_new (d : Data) (u : String) (h : d.findUser u = none) :
    getOrCreate d u = (Data.mk u (d.Tokens ++ [({ Username := u } : TokenData)]), d.Tokens.length) := by
  unfold getOrCreate
  simp [h]

/-- Full authentication makes at least one call, and all its calls are
full-authentication steps. -/
theorem fullAuth_trace (env : Env) (p : Protocol) (request : TokenRequest) (d : Data) (i : Nat)
    (u : String) :
    (p.fullAuth env request d i u).trace ≠ [] ∧
      ∀ e ∈ (p.fullAuth env request d i u).trace, e.isFullAuth = true := by
  unfold Protocol.fullAuth
  simp only [storeToken]
  split
  · split <;> split <;> simp [Event.isFullAuth]
  · cases hF : p.ConfigWithDefaults.Form <;> simp only [] <;> (repeat' split) <;>
      simp [Event.isFullAuth]

/-- Full authentication that ends in a fatal error leaves the store as it
received it. -/
theorem fullAuth_error_store (env : Env) (p : Protocol) (request : TokenRequest) (d : Data)
    (i : Nat) (u : String) (f : Fatal)
    (h : (p.fullAuth env request d i u).result = .error f) :
    (p.fullAuth env request d i u).store = d := by
  revert h
  unfold Protocol.fullAuth
  simp only [storeToken]
  split
  · split <;> simp
  · (repeat' split) <;> simp


/-- Prepending calls to a run does not change its store. -/
theorem after_store (pre : List Event) (o : Outcome) : (o.after pre).store = o.store := rfl

/-- Claim C4: with `Refresh = UseReAuth` and a resolvable username, `GetToken`
is exactly the full authentication run on the store after lookup-or-create;
its calls are all full-authentication steps (there is at least one) and none
is a call of `Validate` or `Refresh`, whatever tokens are stored. -/
theorem GetToken_reauth_skips_cache (env : Env) (p : Protocol) (request : TokenRequest)
    (hpol : request.Refresh = UseReAuth) (huser : effectiveUser p request ≠ "") :
    p.GetToken env request =
        p.fullAuth env request (getOrCreate p.Tokens (effectiveUser p request)).1
          (getOrCreate p.Tokens (effectiveUser p request)).2 (effectiveUser p request) ∧
      (p.GetToken env request).trace ≠ [] ∧
      ∀ e ∈ (p.GetToken env request).trace,
        e.isValidate = false ∧ e.isRefresh = false ∧ e.isFullAuth = true := by
  have h : p.GetToken env request =
      p.fullAuth env request (getOrCreate p.Tokens (effectiveUser p request)).1
        (getOrCreate p.Tokens (effectiveUser p request)).2 (effectiveUser p request) := by
    unfold Protocol.GetToken
    simp [huser, hpol]
  refine ⟨h, ?_, ?_⟩
  · rw [h]; exact (fullAuth_trace env p request _ _ _).1
  · rw [h]
    intro e he
    have := (fullAuth_trace env p request _ _ _).2 e he
    cases e <;> simp_all [Event.isFullAuth, Event.isValidate, Event.isRefresh]

/-- Witness of `GetToken_reauth_skips_cache`: a forced re-authentication for
`alice`, who holds a valid token. -/
theorem GetToken_reauth_skips_cache_witness :
    ({ Refresh := UseReAuth } : TokenRequest).Refresh = UseReAuth ∧
      effectiveUser (sampleProtocol passwordCfg "good.jwt" "r1") { Refresh := UseReAuth } ≠ "" ∧
      ((sampleProtocol passwordCfg "good.jwt" "r1").GetToken sampleEnv
          { Refresh := UseReAuth }).trace ≠ [] :=
  ⟨rfl, by decide,
    (GetToken_reauth_skips_cache sampleEnv (sampleProtocol passwordCfg "good.jwt" "r1")
      { Refresh := UseReAuth } rfl (by decide)).2.1⟩

/-- Claim C5 fails as stated: the record of `alice` holds an access token that
`Validate` accepts and an empty refresh token; with `Refresh = UseRefresh` the
run validates, then prompts and exchanges the password, and never refreshes. -/
theorem GetToken_refresh_not_attempted :
    (sampleProtocol passwordCfg "good.jwt" "").Tokens.findUser
        (effectiveUser (sampleProtocol passwordCfg "good.jwt" "") { Refresh := UseRefresh })
        = some 1 ∧
      Validate sampleEnv ((sampleProtocol passwordCfg "good.jwt" "").Tokens.tokAt 1).AccessToken
        (sampleProtocol passwordCfg "good.jwt" "").ConfigWithDefaults.URL = .ok true ∧
      ((sampleProtocol passwordCfg "good.jwt" "").GetToken sampleEnv
          { Refresh := UseRefresh }).trace =
        [.validate "good.jwt" "https://idp.example", .askPassword,
          .passwordExchange "alice" "pw"] :=
  ⟨rfl, rfl, rfl⟩

/-- Claim C5, amended: when the record of the effective username holds an
access token that `Validate` accepts and a non-empty refresh token, and
`Refresh = UseRefresh`, the run calls `Validate`, then `Refresh`, and every
later call is a full-authentication step. -/
theorem GetToken_refresh_before_fullAuth (env : Env) (p : Protocol) (request : TokenRequest)
    (i : Nat)
    (huser : effectiveUser p request ≠ "")
    (hfind : p.Tokens.findUser (effectiveUser p request) = some i)
    (hacc : (p.Tokens.tokAt i).AccessToken ≠ "")
    (hvalid : Validate env (p.Tokens.tokAt i).AccessToken p.ConfigWithDefaults.URL = .ok true)
    (href : (p.Tokens.tokAt i).RefreshToken ≠ "")
    (hpol : request.Refresh = UseRefresh) :
    ∃ rest, (p.GetToken env request).trace =
        .validate (p.Tokens.tokAt i).AccessToken p.ConfigWithDefaults.URL ::
          .refresh (p.Tokens.tokAt i).RefreshToken p.GetTokenURL :: rest ∧
      ∀ e ∈ rest, e.isFullAuth = true := by
  unfold Protocol.GetToken
  simp only [huser, getOrCreate_found _ _ _ hfind, tokAt_withLast, hpol, hacc, hvalid, href]
  cases hr : p.Refresh env { p.Tokens with Last := effectiveUser p request } i with
  | ok d1 =>
    refine ⟨[], ?_, by simp⟩
    simp [UseRefresh, UseReAuth, hacc, href]
  | error err =>
    refine ⟨(p.fullAuth env request { p.Tokens with Last := effectiveUser p request } i
      (effectiveUser p request)).trace, ?_, (fullAuth_trace env p request _ _ _).2⟩
    simp [UseRefresh, UseReAuth, Outcome.after, hacc, href]

/-- Claim C6: when the record of the effective username holds a (non-empty)
access token that `Validate` accepts and `Refresh = UseDefault`, `GetToken`
returns `FormatToken` of the stored record, its only call is `Validate`, the
records are unchanged and `Last` is that username; a second identical call on
the resulting store returns the same credential and the same store. -/
theorem GetToken_cached_valid (env : Env) (p : Protocol) (request : TokenRequest) (i : Nat)
    (huser : effectiveUser p request ≠ "")
    (hfind : p.Tokens.findUser (effectiveUser p request) = some i)
    (hacc : (p.Tokens.tokAt i).AccessToken ≠ "")
    (hvalid : Validate env (p.Tokens.tokAt i).AccessToken p.ConfigWithDefaults.URL = .ok true)
    (hpol : request.Refresh = UseDefault) :
    (p.GetToken env request).result = .ok ((p.Tokens.tokAt i).FormatToken request.Out) ∧
      (p.GetToken env request).trace =
        [.validate (p.Tokens.tokAt i).AccessToken p.ConfigWithDefaults.URL] ∧
      (p.GetToken env request).store.Tokens = p.Tokens.Tokens ∧
      (p.GetToken env request).store.Last = effectiveUser p request ∧
      (({ p with Tokens := (p.GetToken env request).store } : Protocol).GetToken env
          request).result = (p.GetToken env request).result ∧
      (({ p with Tokens := (p.GetToken env request).store } : Protocol).GetToken env
          request).store = (p.GetToken env request).store := by
  have key : ∀ q : Protocol, q.Cfg = p.Cfg → q.Defaults = p.Defaults →
      q.Tokens.Tokens = p.Tokens.Tokens → effectiveUser q request = effectiveUser p request →
      q.GetToken env request =
        ⟨.ok ((p.Tokens.tokAt i).FormatToken request.Out),
          { p.Tokens with Last := effectiveUser p request },
          [.validate (p.Tokens.tokAt i).AccessToken p.ConfigWithDefaults.URL]⟩ := by
    intro q hc hd ht hu
    have hfq : q.Tokens.findUser (effectiveUser p request) = some i := by
      simpa [Data.findUser, ht] using hfind
    have htq : q.Tokens.tokAt i = p.Tokens.tokAt i := by simp [Data.tokAt, ht]
    have hcq : q.ConfigWithDefaults = p.ConfigWithDefaults := by
      simp [Protocol.ConfigWithDefaults, hc, hd]
    unfold Protocol.GetToken
    simp only [hu, huser, getOrCreate_found _ _ _ hfq, tokAt_withLast, htq, hcq, hpol, hvalid]
    simp [UseDefault, UseRefresh, UseReAuth, hacc, ht]
  have h1 := key p rfl rfl rfl rfl
  have h2 := key { p with Tokens := (p.GetToken env request).store } rfl rfl
    (by rw [h1]) (by
      rw [h1]
      unfold effectiveUser
      by_cases hn : request.Username = "" <;> simp [hn])
  rw [h2, h1]
  simp

/-- Full authentication never changes `Last`. -/
theorem fullAuth_store_last (env : Env) (p : Protocol) (request : TokenRequest) (d : Data)
    (i : Nat) (u : String) : (p.fullAuth env request d i u).store.Last = d.Last := by
  unfold Protocol.fullAuth
  simp only [storeToken]
  split
  · split <;> simp
  · (repeat' split) <;> simp

/-- Full authentication never ends with the missing-username error. -/
theorem fullAuth_not_missing (env : Env) (p : Protocol) (request : TokenRequest) (d : Data)
    (i : Nat) (u : String) : (p.fullAuth env request d i u).result ≠ .error .missingUsername := by
  unfold Protocol.fullAuth
  simp only [storeToken]
  split
  · split <;> simp
  · (repeat' split) <;> simp

/-- A successful `Refresh` never changes `Last`. -/
theorem Refresh_last (env : Env) (p : Protocol) (d d1 : Data) (i : Nat)
    (h : p.Refresh env d i = .ok d1) : d1.Last = d.Last := by
  unfold Protocol.Refresh at h
  simp only [] at h
  split at h
  · simp at h
  · simp only [Except.ok.injEq] at h
    rw [← h]

/-- After lookup-or-create, `Last` is the username. -/
theorem getOrCreate_last (d : Data) (u : String) : (getOrCreate d u).1.Last = u := by
  cases h : d.findUser u with
  | none => rw [getOrCreate_new d u h]
  | some i => rw [getOrCreate_found d u i h]

/-- The function `Validate` never ends with the missing-username error. -/
theorem Validate_not_missing (env : Env) (a url : String) :
    Validate env a url ≠ .error .missingUsername := by
  unfold Validate
  cases env.parseSigned a with
  | none => simp
  | some t =>
    cases env.getServerData url with
    | error e => simp
    | ok svc =>
      simp only []
      split <;> simp

/-- Claim C7: the effective username is the request username when non-empty,
else `Last`; when both are empty the run ends with the missing-username error,
makes no call and leaves the store unchanged; when a username is resolved the
run never ends with that error and `Last` becomes the resolved username. -/
theorem GetToken_effective_username (env : Env) (p : Protocol) (request : TokenRequest) :
    (request.Username ≠ "" → effectiveUser p request = request.Username) ∧
      (request.Username = "" → effectiveUser p request = p.Tokens.Last) ∧
      (request.Username = "" → p.Tokens.Last = "" →
        (p.GetToken env request).result = .error .missingUsername ∧
          (p.GetToken env request).store = p.Tokens ∧ (p.GetToken env request).trace = []) ∧
      (effectiveUser p request ≠ "" →
        (p.GetToken env request).result ≠ .error .missingUsername ∧
          (p.GetToken env request).store.Last = effectiveUser p request) := by
  refine ⟨fun h => by simp [effectiveUser, h], fun h => by simp [effectiveUser, h], ?_, ?_⟩
  · intro h1 h2
    have : effectiveUser p request = "" := by simp [effectiveUser, h1, h2]
    unfold Protocol.GetToken
    simp [this]
  · intro hu
    have hl := getOrCreate_last p.Tokens (effectiveUser p request)
    unfold Protocol.GetToken
    simp only [hu, if_false]
    split
    · split
      · split
        · rename_i f hv
          refine ⟨?_, hl⟩
          intro hf
          simp only [Except.error.injEq] at hf
          rw [hf] at hv
          exact Validate_not_missing env _ _ hv
        · split
          · exact ⟨by simp, hl⟩
          · split
            · split
              · rename_i d1 hr
                exact ⟨by simp, by rw [Refresh_last env p _ d1 _ hr]; exact hl⟩
              · exact ⟨fullAuth_not_missing env p request _ _ _,
                  by rw [after_store, fullAuth_store_last]; exact hl⟩
            · exact ⟨fullAuth_not_missing env p request _ _ _,
                by rw [after_store, fullAuth_store_last]; exact hl⟩
      · exact ⟨fullAuth_not_missing env p request _ _ _,
          by rw [fullAuth_store_last]; exact hl⟩
    · exact ⟨fullAuth_not_missing env p request _ _ _,
        by rw [fullAuth_store_last]; exact hl⟩

/-- Reading a record just written through an in-range pointer. -/
theorem tokAt_set (l : String) (ts : List TokenData) (i : Nat) (t : TokenData)
    (h : i < ts.length) : (Data.mk l (ts.set i t)).tokAt i = t := by
  simp [Data.tokAt, List.getD, h]

/-- Claim C8: when the record of the effective username has a non-empty access
token that `Validate` rejects and a non-empty refresh token, `Refresh =
UseDefault`, and the refresh exchange succeeds with `t`, the record keeps its
username and has exactly the access token, refresh token and type of `t`, the
formatted refreshed record is returned, and the calls are `Validate` and
`Refresh` only: no full-authentication step. -/
theorem GetToken_refresh_success (env : Env) (p : Protocol) (request : TokenRequest) (i : Nat)
    (t : OAuthToken)
    (huser : effectiveUser p request ≠ "")
    (hfind : p.Tokens.findUser (effectiveUser p request) = some i)
    (hacc : (p.Tokens.tokAt i).AccessToken ≠ "")
    (hinvalid : Validate env (p.Tokens.tokAt i).AccessToken p.ConfigWithDefaults.URL = .ok false)
    (href : (p.Tokens.tokAt i).RefreshToken ≠ "")
    (hpol : request.Refresh = UseDefault)
    (hrefresh : env.refreshToken p.ConfigWithDefaults.ClientId p.ConfigWithDefaults.ClientSecret
      (p.Tokens.tokAt i).RefreshToken p.GetTokenURL = .ok t) :
    (p.GetToken env request).store.tokAt i =
        { Username := (p.Tokens.tokAt i).Username, AccessToken := t.AccessToken,
          RefreshToken := t.RefreshToken, Type_ := t.TokenType } ∧
      (p.GetToken env request).result =
        .ok (((p.GetToken env request).store.tokAt i).FormatToken request.Out) ∧
      (p.GetToken env request).trace =
        [.validate (p.Tokens.tokAt i).AccessToken p.ConfigWithDefaults.URL,
          .refresh (p.Tokens.tokAt i).RefreshToken p.GetTokenURL] ∧
      ∀ e ∈ (p.GetToken env request).trace, e.isFullAuth = false := by
  have hi := (findUser_some _ _ _ hfind).1
  have hG : p.GetToken env request =
      ⟨.ok ((TokenData.mk (p.Tokens.tokAt i).Username t.AccessToken t.RefreshToken
            t.TokenType).FormatToken request.Out),
        Data.mk (effectiveUser p request)
          (p.Tokens.Tokens.set i
            (TokenData.mk (p.Tokens.tokAt i).Username t.AccessToken t.RefreshToken t.TokenType)),
        [.validate (p.Tokens.tokAt i).AccessToken p.ConfigWithDefaults.URL,
          .refresh (p.Tokens.tokAt i).RefreshToken p.GetTokenURL]⟩ := by
    unfold Protocol.GetToken
    simp only [huser, getOrCreate_found _ _ _ hfind, tokAt_withLast, hpol, hinvalid,
      Protocol.Refresh, hrefresh]
    simp [UseDefault, UseReAuth, hacc, href, tokAt_set _ _ _ _ hi]
  rw [hG]
  refine ⟨?_, ?_, rfl, ?_⟩
  · simp [tokAt_set _ _ _ _ hi]
  · simp [tokAt_set _ _ _ _ hi]
  · intro e he
    simp at he
    rcases he with rfl | rfl <;> rfl

/-- Claim C9: when the refresh exchange that `GetToken` attempts returns an
error, the run is the full authentication on the store with the record as it
was, after the calls of `Validate` and `Refresh`; its result is the result of
that full authentication, in which the refresh error does not occur. -/
theorem GetToken_refresh_failure (env : Env) (p : Protocol) (request : TokenRequest) (i : Nat)
    (valid : Bool) (err : String)
    (huser : effectiveUser p request ≠ "")
    (hfind : p.Tokens.findUser (effectiveUser p request) = some i)
    (hpol : request.Refresh ≠ UseReAuth)
    (hacc : (p.Tokens.tokAt i).AccessToken ≠ "")
    (hval : Validate env (p.Tokens.tokAt i).AccessToken p.ConfigWithDefaults.URL = .ok valid)
    (hgo : valid = false ∨ request.Refresh = UseRefresh)
    (href : (p.Tokens.tokAt i).RefreshToken ≠ "")
    (hrefresh : env.refreshToken p.ConfigWithDefaults.ClientId p.ConfigWithDefaults.ClientSecret
      (p.Tokens.tokAt i).RefreshToken p.GetTokenURL = .error err) :
    p.GetToken env request =
        (p.fullAuth env request { p.Tokens with Last := effectiveUser p request } i
          (effectiveUser p request)).after
          [.validate (p.Tokens.tokAt i).AccessToken p.ConfigWithDefaults.URL,
            .refresh (p.Tokens.tokAt i).RefreshToken p.GetTokenURL] ∧
      (p.GetToken env request).result =
        (p.fullAuth env request { p.Tokens with Last := effectiveUser p request } i
          (effectiveUser p request)).result ∧
      ({ p.Tokens with Last := effectiveUser p request } : Data).tokAt i = p.Tokens.tokAt i := by
  have hG : p.GetToken env request =
      (p.fullAuth env request { p.Tokens with Last := effectiveUser p request } i
        (effectiveUser p request)).after
        [.validate (p.Tokens.tokAt i).AccessToken p.ConfigWithDefaults.URL,
          .refresh (p.Tokens.tokAt i).RefreshToken p.GetTokenURL] := by
    have hc : ¬(valid = true ∧ request.Refresh ≠ UseRefresh) := by
      rcases hgo with h | h
      · simp [h]
      · simp [h]
    unfold Protocol.GetToken
    simp only [huser, getOrCreate_found _ _ _ hfind, tokAt_withLast, hval, Protocol.Refresh,
      hrefresh]
    simp [hpol, hacc, href, hc]
  exact ⟨hG, by rw [hG]; rfl, rfl⟩

/-- A run with a resolved username that ends in a fatal error leaves the store
of the lookup-or-create step. -/
theorem GetToken_error_store (env : Env) (p : Protocol) (request : TokenRequest) (f : Fatal)
    (huser : effectiveUser p request ≠ "")
    (h : (p.GetToken env request).result = .error f) :
    (p.GetToken env request).store = (getOrCreate p.Tokens (effectiveUser p request)).1 := by
  revert h
  unfold Protocol.GetToken
  simp only [huser, if_false]
  split
  · split
    · split
      · intro _; rfl
      · split
        · intro h; simp at h
        · split
          · split
            · intro h; simp at h
            · intro h; exact fullAuth_error_store env p request _ _ _ f h
          · intro h; exact fullAuth_error_store env p request _ _ _ f h
    · intro h; exact fullAuth_error_store env p request _ _ _ f h
  · intro h; exact fullAuth_error_store env p request _ _ _ f h

/-- Claim C10 fails as stated: on an empty store, a request for `alice` whose
password exchange is rejected ends in a fatal error with a record for `alice`
appended and `Last` set to `alice`. -/
theorem GetToken_failure_changes_store :
    (({ Cfg := passwordCfg } : Protocol).GetToken rejectingEnv { Username := "alice" }).result
        = .error (.passwordGrant "invalid_grant") ∧
      (({ Cfg := passwordCfg } : Protocol).GetToken rejectingEnv { Username := "alice" }).store
        = { Last := "alice", Tokens := [{ Username := "alice" }] } ∧
      (({ Cfg := passwordCfg } : Protocol).GetToken rejectingEnv { Username := "alice" }).store
        ≠ ({ Cfg := passwordCfg } : Protocol).Tokens :=
  ⟨rfl, rfl, by decide⟩

/-- Claim C10, amended: when `GetToken` ends in a fatal error, either no
username was resolved, the error is the missing-username error and the store
is unchanged; or the store is the one after lookup-or-create: `Last` is the
effective username, and the records are those before the call, followed by
one empty record for the effective username if it had none. -/
theorem GetToken_failure_store (env : Env) (p : Protocol) (request : TokenRequest) (f : Fatal)
    (h : (p.GetToken env request).result = .error f) :
    (effectiveUser p request = "" →
        f = .missingUsername ∧ (p.GetToken env request).store = p.Tokens) ∧
      (effectiveUser p request ≠ "" →
        (p.GetToken env request).store.Last = effectiveUser p request ∧
          (∀ i, p.Tokens.findUser (effectiveUser p request) = some i →
            (p.GetToken env request).store.Tokens = p.Tokens.Tokens) ∧
          (p.Tokens.findUser (effectiveUser p request) = none →
            (p.GetToken env request).store.Tokens =
              p.Tokens.Tokens ++ [{ Username := effectiveUser p request }])) := by
  constructor
  · intro hu
    have hG : p.GetToken env request = ⟨.error .missingUsername, p.Tokens, []⟩ := by
      unfold Protocol.GetToken
      simp [hu]
    rw [hG] at h
    simp only [Except.error.injEq] at h
    exact ⟨h.symm, by rw [hG]⟩
  · intro hu
    rw [GetToken_error_store env p request f hu h]
    refine ⟨getOrCreate_last _ _, ?_, ?_⟩
    · intro i hi
      rw [getOrCreate_found _ _ _ hi]
    · intro hn
      rw [getOrCreate_new _ _ hn]

/-- Witness of `GetToken_failure_store`: the rejected password exchange for
`alice` on an empty store. -/
theorem GetToken_failure_store_witness :
    (({ Cfg := passwordCfg } : Protocol).GetToken rejectingEnv { Username := "alice" }).result
        = .error (.passwordGrant "invalid_grant") ∧
      (({ Cfg := passwordCfg } : Protocol).GetToken rejectingEnv { Username := "alice" }).store.Last
        = "alice" :=
  ⟨rfl, ((GetToken_failure_store rejectingEnv { Cfg := passwordCfg } { Username := "alice" }
    (.passwordGrant "invalid_grant") rfl).2 (by decide)).1⟩

/-- On the manual path (no form configured, or form login returned nothing) a
pasted redirect whose `state` differs from the generated one ends the run with
the invalid-state error, the store untouched, and no call of `Exchange`. -/
theorem fullAuth_manual_state_mismatch (env : Env) (p : Protocol) (request : TokenRequest)
    (d : Data) (i : Nat) (userName : String) (u : URL)
    (hgrant : p.ConfigWithDefaults.PasswordGrant = false)
    (hform : ∀ form, p.ConfigWithDefaults.Form = some form →
      ∀ authUrl, env.formAuth form authUrl userName request.Password = none)
    (hparse : env.urlParse (env.ask "After authentication, copy/paste the URL here:") = .ok u)
    (hstate : u.queryGet "state" ≠ sprintfHex (env.randUint64 % 2 ^ 64)) :
    (p.fullAuth env request d i userName).result = .error .invalidState ∧
      (p.fullAuth env request d i userName).store = d ∧
      ∀ e ∈ (p.fullAuth env request d i userName).trace, e.isExchange = false := by
  have hs : sprintfHex (env.randUint64 % 18446744073709551616) ≠ u.queryGet "state" :=
    fun h => hstate h.symm
  unfold Protocol.fullAuth
  cases hF : p.ConfigWithDefaults.Form with
  | none => simp [hgrant, hparse, hs, Event.isExchange, hF]
  | some form =>
    simp [hgrant, hparse, hs, Event.isExchange, hF, hform form hF]

/-- Claim C1, evaluated where it fails: with a form configured, `FormAuth`
returns a redirect whose `state` is `attacker` while the generated state is
`2a`; the run does not abort, it calls `Exchange` with the code of that
redirect and returns the token. -/
theorem GetToken_formAuth_state_unchecked :
    sprintfHex (sampleEnv.randUint64 % 2 ^ 64) = "2a" ∧
      sampleEnv.formAuth { descriptor := "works" }
          "https://idp.example/protocol/openid-connect/auth?state=2a" "alice" "" =
        some ⟨[("state", "attacker"), ("code", "c0de")]⟩ ∧
      (URL.mk [("state", "attacker"), ("code", "c0de")]).queryGet "state" = "attacker" ∧
      ((sampleProtocol formCfg "" "").GetToken sampleEnv { Refresh := UseReAuth }).trace =
        [.formAuth "https://idp.example/protocol/openid-connect/auth?state=2a" "alice" "",
          .exchange "c0de"] ∧
      ((sampleProtocol formCfg "" "").GetToken sampleEnv { Refresh := UseReAuth }).result =
        .ok "new.jwt" :=
  ⟨rfl, rfl, rfl, rfl, rfl⟩


/-- Witness of `GetToken_refresh_before_fullAuth`: `alice` holds `good.jwt` and
refresh token `r1`, and the request forces a refresh. -/
theorem GetToken_refresh_before_fullAuth_witness :
    (sampleProtocol passwordCfg "good.jwt" "r1").Tokens.findUser "alice" = some 1 ∧
      Validate sampleEnv "good.jwt" "https://idp.example" = .ok true ∧
      ∃ rest,
        ((sampleProtocol passwordCfg "good.jwt" "r1").GetToken sampleEnv
            { Refresh := UseRefresh }).trace =
          .validate "good.jwt" "https://idp.example" ::
            .refresh "r1" "https://idp.example/protocol/openid-connect/token" :: rest ∧
        ∀ e ∈ rest, e.isFullAuth = true :=
  ⟨rfl, rfl,
    GetToken_refresh_before_fullAuth sampleEnv (sampleProtocol passwordCfg "good.jwt" "r1")
      { Refresh := UseRefresh } 1 (by decide) rfl (by decide) rfl (by decide) rfl⟩

/-- Witness of `GetToken_cached_valid`: `alice` holds `good.jwt`, default
policy, no explicit username. -/
theorem GetToken_cached_valid_witness :
    (sampleProtocol passwordCfg "good.jwt" "r1").Tokens.findUser "alice" = some 1 ∧
      Validate sampleEnv "good.jwt" "https://idp.example" = .ok true ∧
      ((sampleProtocol passwordCfg "good.jwt" "r1").GetToken sampleEnv {}).result =
        .ok "good.jwt" :=
  ⟨rfl, rfl,
    (GetToken_cached_valid sampleEnv (sampleProtocol passwordCfg "good.jwt" "r1") {} 1
      (by decide) rfl (by decide) rfl rfl).1⟩

/-- Witness of `GetToken_effective_username`: an empty store and a request
without username. -/
theorem GetToken_effective_username_witness :
    (({} : Protocol).GetToken sampleEnv {}).result = .error .missingUsername ∧
      (({} : Protocol).GetToken sampleEnv {}).store = {} ∧
      (({} : Protocol).GetToken sampleEnv {}).trace = [] :=
  (GetToken_effective_username sampleEnv {} {}).2.2.1 rfl rfl

/-- Witness of `GetToken_refresh_success`: `alice` holds the expired `old.jwt`
and refresh token `r1`, which the provider accepts. -/
theorem GetToken_refresh_success_witness :
    Validate sampleEnv "old.jwt" "https://idp.example" = .ok false ∧
      ((sampleProtocol passwordCfg "old.jwt" "r1").GetToken sampleEnv {}).store.tokAt 1 =
        { Username := "alice", AccessToken := "fresh.jwt", RefreshToken := "r2",
          Type_ := "bearer" } :=
  ⟨rfl,
    (GetToken_refresh_success sampleEnv (sampleProtocol passwordCfg "old.jwt" "r1") {} 1
      (sampleToken "fresh.jwt" "r2") (by decide) rfl (by decide) rfl (by decide) rfl rfl).1⟩

/-- Witness of `GetToken_refresh_failure`: `alice` holds the expired `old.jwt`
and refresh token `bad`, which the provider rejects. -/
theorem GetToken_refresh_failure_witness :
    sampleEnv.refreshToken "cli" "" "bad" "https://idp.example/protocol/openid-connect/token" =
        .error "invalid_grant" ∧
      ((sampleProtocol passwordCfg "old.jwt" "bad").GetToken sampleEnv {}).result =
        ((sampleProtocol passwordCfg "old.jwt" "bad").fullAuth sampleEnv {}
          { (sampleProtocol passwordCfg "old.jwt" "bad").Tokens with Last := "alice" } 1
          "alice").result :=
  ⟨rfl,
    (GetToken_refresh_failure sampleEnv (sampleProtocol passwordCfg "old.jwt" "bad") {} 1 false
      "invalid_grant" (by decide) rfl (by decide) (by decide) rfl (Or.inl rfl) (by decide)
      rfl).2.1⟩

/-! ## Theorems: endpoints, formatting, registry, and the store -/

/-- Claim C13: `combine` of `https://idp.example/` and `/protocol/token`, and of
`https://idp.example` and `protocol/token`, are both
`https://idp.example/protocol/token`. -/
theorem combine_examples :
    combine "https://idp.example/" "/protocol/token" = "https://idp.example/protocol/token" ∧
      combine "https://idp.example" "protocol/token" = "https://idp.example/protocol/token" := by
  constructor <;> decide

/-- Claim C14 fails as stated: for a base with two trailing separators `combine`
keeps both, where the specification's join has exactly one. -/
theorem combine_double_separator :
    combine "https://idp.example//" "protocol/token" = "https://idp.example//protocol/token" ∧
      combineSpec "https://idp.example//" "protocol/token" = "https://idp.example/protocol/token" ∧
      combine "https://idp.example//" "protocol/token" ≠
        combineSpec "https://idp.example//" "protocol/token" := by
  refine ⟨by decide, by decide, by decide⟩

/-- Removing all leading separators from a text with at most one of them
removes just that one. -/
theorem trimLeading_single (l : List Char) (h : ¬ ['/', '/'] <+: l) :
    trimLeadingSlashes l = if l.head? = some '/' then l.drop 1 else l := by
  unfold trimLeadingSlashes
  cases l with
  | nil => simp
  | cons a t =>
    by_cases ha : a = '/'
    · subst ha
      cases t with
      | nil => simp [List.dropWhile]
      | cons b t2 =>
        have hb : b ≠ '/' := by
          intro hb
          apply h
          subst hb
          exact ⟨t2, rfl⟩
        simp [List.dropWhile, hb]
    · simp [List.dropWhile, ha]

/-- A text with at most one trailing separator, stripped of it and followed by
one separator, is the text with a separator added when it has none. -/
theorem trimTrailing_single (l : List Char) (h : ¬ ['/', '/'] <:+ l) :
    trimTrailingSlashes l ++ ['/'] = if l.getLast? = some '/' then l else l ++ ['/'] := by
  unfold trimTrailingSlashes
  have h2 : ¬ ['/', '/'] <+: l.reverse := by
    intro hp
    apply h
    have := List.reverse_suffix.2 hp
    simpa using this
  have := trimLeading_single l.reverse h2
  unfold trimLeadingSlashes at this
  rw [this]
  rcases List.eq_nil_or_concat l with rfl | ⟨t, a, rfl⟩
  · simp
  · by_cases ha : a = '/'
    · subst ha; simp
    · simp [ha]

/-- Claim C14, amended: for a base with at most one trailing separator and a
suffix with at most one leading separator, `combine` is the base without its
trailing separator, one separator, and the suffix without its leading
separator. -/
theorem combine_eq_combineSpec (base suffix : String)
    (hb : ¬ ['/', '/'] <:+ base.data) (hs : ¬ ['/', '/'] <+: suffix.data) :
    combine base suffix = combineSpec base suffix := by
  unfold combine combineSpec
  rw [trimLeading_single _ hs, trimTrailing_single _ hb]
  apply String.ext
  by_cases h1 : suffix.data.head? = some '/' <;> by_cases h2 : base.data.getLast? = some '/' <;>
    simp [h1, h2, String.data_append]

set_option maxRecDepth 100000 in
/-- On the 128 ASCII characters, the table of header field bytes of Go is the
token alphabet. -/
theorem validHeaderFieldByte_ofNat :
    ∀ n < 128, (validHeaderFieldByte (Char.ofNat n) = true ↔ Char.ofNat n ∈ tokenAlphabet) := by
  decide

/-- The token alphabet is ASCII. -/
theorem tokenAlphabet_ascii : ∀ c ∈ tokenAlphabet, c.toNat < 128 := by
  decide

/-- The table of header field bytes of Go is the token alphabet. -/
theorem validHeaderFieldByte_iff (c : Char) :
    validHeaderFieldByte c = true ↔ c ∈ tokenAlphabet := by
  by_cases h : c.toNat < 128
  · have := validHeaderFieldByte_ofNat c.toNat h
    rwa [Char.ofNat_toNat] at this
  · constructor
    · intro hv
      exfalso
      apply h
      unfold validHeaderFieldByte at hv
      simp at hv
      omega
    · intro hm
      exact absurd (tokenAlphabet_ascii c hm) h

/-- The test of `CanonicalHeaderKey` holds exactly for token texts. -/
theorem all_validHeaderFieldByte_iff (s : String) :
    s.data.all validHeaderFieldByte = true ↔ isTokenText s := by
  unfold isTokenText
  simp [List.all_eq_true, validHeaderFieldByte_iff]

/-- A text has at least one word. -/
theorem splitDash_ne_nil (l : List Char) : splitDash l ≠ [] := by
  cases l with
  | nil => simp [splitDash]
  | cons c cs =>
    unfold splitDash
    split
    · simp
    · split <;> simp

/-- Joining words whose first word is non-empty starts with its first letter. -/
theorem joinDash_cons_cons (a : Char) (w : List Char) (ws : List (List Char)) :
    joinDash ((a :: w) :: ws) = a :: joinDash (w :: ws) := by
  cases ws <;> simp [joinDash]

/-- Upper-casing never produces a dash from another character. -/
theorem toUpper_ne_dash (c : Char) (h : c ≠ '-') : c.toUpper ≠ '-' := by
  unfold Char.toUpper
  simp only []
  split
  · rename_i hr
    intro he
    have h2 := congrArg Char.toNat he
    generalize c.toNat = n at hr h2
    obtain ⟨h1, h3⟩ := hr
    interval_cases n <;> revert h2 <;> decide
  · exact h

/-- Lower-casing never produces a dash from another character. -/
theorem toLower_ne_dash (c : Char) (h : c ≠ '-') : c.toLower ≠ '-' := by
  unfold Char.toLower
  simp only []
  split
  · rename_i hr
    intro he
    have h2 := congrArg Char.toNat he
    generalize c.toNat = n at hr h2
    obtain ⟨h1, h3⟩ := hr
    interval_cases n <;> revert h2 <;> decide
  · exact h

/-- One step of the canonicalising loop, in terms of the case conversions. -/
theorem canonLoop_step (upper : Bool) (c : Char) (cs : List Char) :
    canonLoop upper (c :: cs) =
      (if upper then c.toUpper else c.toLower) ::
        canonLoop ((if upper then c.toUpper else c.toLower) = '-') cs := by
  cases upper
  · simp only [canonLoop, Char.toLower]
    by_cases h : 65 ≤ c.toNat ∧ c.toNat ≤ 90
    · simp [h]
    · simp [h]
  · simp only [canonLoop, Char.toUpper]
    by_cases h : 97 ≤ c.toNat ∧ c.toNat ≤ 122
    · simp [h]
    · simp [h]

/-- The canonicalising loop capitalizes word by word. -/
theorem canonLoop_eq (l : List Char) :
    ∀ upper, canonLoop upper l = joinDash (caseWords upper (splitDash l)) := by
  induction l with
  | nil => intro upper; cases upper <;> simp [canonLoop, splitDash, caseWords, joinDash, capitalizeWord]
  | cons c cs ih =>
    intro upper
    rw [canonLoop_step]
    by_cases hc : c = '-'
    · subst hc
      have h1 : (if upper = true then Char.toUpper '-' else Char.toLower '-') = '-' := by
        cases upper <;> decide
      rw [h1]
      simp only [decide_True, splitDash, if_true]
      rw [ih true]
      obtain ⟨w, ws, hw⟩ := List.exists_cons_of_ne_nil (splitDash_ne_nil cs)
      rw [hw]
      cases upper <;> simp [caseWords, joinDash, capitalizeWord]
    · have h1 : (if upper = true then c.toUpper else c.toLower) ≠ '-' := by
        cases upper
        · simpa using toLower_ne_dash c hc
        · simpa using toUpper_ne_dash c hc
      simp only [h1, decide_False]
      rw [ih false]
      obtain ⟨w, ws, hw⟩ := List.exists_cons_of_ne_nil (splitDash_ne_nil cs)
      simp only [splitDash, hc, if_false, hw]
      cases upper <;> simp [caseWords, capitalizeWord, joinDash_cons_cons]

/-- The function `CanonicalHeaderKey` is canonical capitalization on token
texts and the identity on every other text. -/
theorem CanonicalHeaderKey_spec (s : String) :
    (isTokenText s → CanonicalHeaderKey s = canonicalCapitalization s) ∧
      (¬ isTokenText s → CanonicalHeaderKey s = s) := by
  unfold CanonicalHeaderKey canonicalCapitalization
  constructor
  · intro h
    rw [if_pos ((all_validHeaderFieldByte_iff s).2 h), canonLoop_eq s.data true]
    obtain ⟨w, ws, hw⟩ := List.exists_cons_of_ne_nil (splitDash_ne_nil s.data)
    rw [hw]
    simp [caseWords]
  · intro h
    rw [if_neg (fun hv => h ((all_validHeaderFieldByte_iff s).1 hv))]

/-- Claim C15 fails as stated: a type holding a space is not put in canonical
capitalization; `bearer token` is written as it is, not as `Bearer token`. -/
theorem FormatToken_type_not_canonical :
    (TokenData.mk "alice" "tok" "" "bearer token").FormatToken OutputHeader =
        "Authorization: bearer token tok" ∧
      canonicalCapitalization "bearer token" = "Bearer token" ∧
      (TokenData.mk "alice" "tok" "" "bearer token").FormatToken OutputHeader ≠
        "Authorization: " ++ canonicalCapitalization "bearer token" ++ " " ++ "tok" := by
  refine ⟨by decide, by decide, by decide⟩

/-- Claim C15, amended: `FormatToken` with `OutputToken` is the access token;
with `OutputHeader` it is `Authorization: `, the type, one space and the access
token, where a type made of header-name characters only is put in canonical
capitalization (`bearer` becomes `Bearer`) and any other type is written
unchanged; for every other selector value the output is the access token. -/
theorem FormatToken_spec (t : TokenData) (out : OutputOption) :
    t.FormatToken OutputToken = t.AccessToken ∧
      (isTokenText t.Type_ →
        t.FormatToken OutputHeader =
          "Authorization: " ++ canonicalCapitalization t.Type_ ++ " " ++ t.AccessToken) ∧
      (¬ isTokenText t.Type_ →
        t.FormatToken OutputHeader = "Authorization: " ++ t.Type_ ++ " " ++ t.AccessToken) ∧
      (out ≠ OutputHeader → t.FormatToken out = t.AccessToken) ∧
      canonicalCapitalization "bearer" = "Bearer" := by
  refine ⟨by simp [TokenData.FormatToken, OutputToken, OutputHeader], ?_, ?_, ?_, by decide⟩
  · intro h
    simp [TokenData.FormatToken, (CanonicalHeaderKey_spec t.Type_).1 h]
  · intro h
    simp [TokenData.FormatToken, (CanonicalHeaderKey_spec t.Type_).2 h]
  · intro h
    simp [TokenData.FormatToken, h]

/-- Witness of `FormatToken_spec`: the record of `alice` with type `bearer`. -/
theorem FormatToken_spec_witness :
    isTokenText "bearer" ∧
      (aliceRecord "tok" "").FormatToken OutputHeader = "Authorization: Bearer tok" ∧
      (aliceRecord "tok" "").FormatToken 7 = "tok" :=
  ⟨by decide, (FormatToken_spec (aliceRecord "tok" "") 7).2.1 (by decide),
    (FormatToken_spec (aliceRecord "tok" "") 7).2.2.2.1 (by decide)⟩

/-- Applying `wdef` twice with the same default changes nothing. -/
theorem wdef_idem (s d : String) : wdef (wdef s d) d = wdef s d := by
  unfold wdef
  by_cases h : s.length > 0
  · simp [h]
  · simp [h]

/-- Claim C16: `Merge` is idempotent: merging the result of `c.Merge(d)` with `d`
again gives `c.Merge(d)`. `Merge` takes and returns values, so it is a function
of its two arguments here as in the source. -/
theorem Merge_idempotent (c d : Config) : (c.Merge d).Merge d = c.Merge d := by
  unfold Config.Merge
  cases hc : c.Form <;> cases hd : d.Form <;> simp [wdef_idem]

/-- Claim C18: after `Register(name, f)`, `Get(name)` is the call of `f`; a later
`Register` for the same name replaces the earlier factory; `Get` of any other
name is unaffected; `Get` of a name never registered returns nil without
failing; and the call of a non-nil factory returns what the factory returns. -/
theorem Registry_contract {P : Type} (protocols : Registry P) (name : String)
    (f g : Factory P) :
    Get (Register protocols name f) name = invoke f ∧
      Get (Register (Register protocols name g) name f) name = invoke f ∧
      (∀ other, other ≠ name → Get (Register protocols name f) other = Get protocols other) ∧
      (∀ regs : List (String × Factory P), (∀ r ∈ regs, r.1 ≠ name) →
        Get (registerAll (emptyRegistry P) regs) name = .ok none) ∧
      (∀ h : Unit → Option P, invoke (some h) = .ok (h ())) := by
  refine ⟨by simp [Get, Register], by simp [Get, Register], ?_, ?_, fun h => rfl⟩
  · intro other ho
    simp [Get, Register, ho]
  · intro regs
    have key : ∀ (regs : List (String × Factory P)) (r0 : Registry P), r0 name = none →
        (∀ r ∈ regs, r.1 ≠ name) → registerAll r0 regs name = none := by
      intro regs
      induction regs with
      | nil => intro r0 h0 _; simpa [registerAll] using h0
      | cons r rest ih =>
        intro r0 h0 hr
        obtain ⟨n, fa⟩ := r
        have hn : n ≠ name := hr (n, fa) (by simp)
        simp only [registerAll]
        apply ih
        · simp [Register, Ne.symm hn, h0]
        · intro r' hr'
          exact hr r' (by simp [hr'])
    intro hr
    simp [Get, key regs (emptyRegistry P) rfl hr]

/-- Witness of `Registry_contract`: the registry of package oidc knows `oidc`
and `oidc-auth` and does not know `saml`. -/
theorem Registry_contract_witness :
    Get oidcRegistry "oidc" = .ok (some {}) ∧ Get oidcRegistry "oidc-auth" = .ok (some {}) ∧
      Get oidcRegistry "saml" = .ok none ∧
      Get (registerAll (emptyRegistry Protocol)
        [("oidc-auth", some fun _ => some {}), ("oidc", some fun _ => some {})]) "saml"
        = .ok none :=
  ⟨rfl, rfl, rfl,
    (Registry_contract (emptyRegistry Protocol) "saml" none none).2.2.2.1
      [("oidc-auth", some fun _ => some {}), ("oidc", some fun _ => some {})] (by decide)⟩

/-- Full authentication is the token acquisition followed by storing the token. -/
theorem fullAuth_eq_authToken (env : Env) (p : Protocol) (request : TokenRequest) (d : Data)
    (i : Nat) (u : String) :
    p.fullAuth env request d i u =
      match p.authToken env request u with
      | (.ok token, tr) => storeToken request d i token tr
      | (.error f, tr) => ⟨.error f, d, tr⟩ := by
  unfold Protocol.fullAuth Protocol.authToken Protocol.oauthConf grantPassword
  simp only []
  split
  · split <;> simp_all
  · cases hF : p.ConfigWithDefaults.Form <;> simp only [] <;> (repeat' split) <;> simp_all

/-- All calls of the token acquisition are full-authentication steps. -/
theorem authToken_trace (env : Env) (p : Protocol) (request : TokenRequest) (u : String) :
    ∀ e ∈ (p.authToken env request u).2, e.isFullAuth = true := by
  unfold Protocol.authToken
  simp only []
  split
  · split <;> split <;> simp [Event.isFullAuth]
  · cases hF : p.ConfigWithDefaults.Form <;> simp only [] <;> (repeat' split) <;>
      simp [Event.isFullAuth]

/-- The four ways a run with a resolved username ends. -/
theorem GetToken_cases (env : Env) (p : Protocol) (request : TokenRequest)
    (huser : effectiveUser p request ≠ "") :
    (∃ tr, (∀ e ∈ tr, e.isFullAuth = false) ∧
        (p.GetToken env request).store = (getOrCreate p.Tokens (effectiveUser p request)).1 ∧
        (p.GetToken env request).trace = tr) ∨
      (∃ d1 tr, p.Refresh env (getOrCreate p.Tokens (effectiveUser p request)).1
            (getOrCreate p.Tokens (effectiveUser p request)).2 = .ok d1 ∧
          (∀ e ∈ tr, e.isFullAuth = false) ∧
          (p.GetToken env request).store = d1 ∧ (p.GetToken env request).trace = tr) ∨
      (∃ pre, (∀ e ∈ pre, e.isFullAuth = false) ∧
        p.GetToken env request =
          (p.fullAuth env request (getOrCreate p.Tokens (effectiveUser p request)).1
            (getOrCreate p.Tokens (effectiveUser p request)).2
            (effectiveUser p request)).after pre) := by
  unfold Protocol.GetToken
  simp only [huser, if_false]
  split
  · split
    · split
      · exact Or.inl ⟨_, by simp [Event.isFullAuth], rfl, rfl⟩
      · split
        · exact Or.inl ⟨_, by simp [Event.isFullAuth], rfl, rfl⟩
        · split
          · split
            · rename_i d1 hr
              exact Or.inr (Or.inl ⟨d1, _, hr, by simp [Event.isFullAuth], rfl, rfl⟩)
            · exact Or.inr (Or.inr ⟨_, by simp [Event.isFullAuth], rfl⟩)
          · exact Or.inr (Or.inr ⟨_, by simp [Event.isFullAuth], rfl⟩)
    · exact Or.inr (Or.inr ⟨[], by simp, rfl⟩)
  · exact Or.inr (Or.inr ⟨[], by simp, rfl⟩)

/-- When the loop of `findUser` finds nothing, no record has the username. -/
theorem findUserFrom_none (l : List TokenData) (u : String) (k : Nat)
    (h : findUserFrom l u k = none) : ∀ t ∈ l, t.Username ≠ u := by
  induction l generalizing k with
  | nil => simp
  | cons x xs ih =>
    unfold findUserFrom at h
    by_cases hx : x.Username = u
    · simp [hx] at h
    · simp only [hx, if_false] at h
      intro t ht
      rcases List.mem_cons.1 ht with rfl | ht
      · exact hx
      · exact ih (k + 1) h t ht

/-- After appending a record for a username that had none, the loop of
`findUser` finds it at the end. -/
theorem findUserFrom_append_new (l : List TokenData) (u : String) (k : Nat) (t : TokenData)
    (h : findUserFrom l u k = none) (ht : t.Username = u) :
    findUserFrom (l ++ [t]) u k = some (k + l.length) := by
  induction l generalizing k with
  | nil => simp [findUserFrom, ht]
  | cons x xs ih =>
    unfold findUserFrom at h
    by_cases hx : x.Username = u
    · simp [hx] at h
    · simp only [hx, if_false] at h
      rw [List.cons_append]
      unfold findUserFrom
      simp only [hx, if_false, List.length_cons]
      rw [ih (k + 1) h]
      congr 1
      omega

/-- Overwriting the record found by the loop of `findUser` with one of the same
username does not change what the loop finds. -/
theorem findUserFrom_set (l : List TokenData) (u : String) (k i : Nat) (t : TokenData)
    (h : findUserFrom l u k = some i) (ht : t.Username = u) :
    findUserFrom (l.set (i - k) t) u k = some i := by
  induction l generalizing k with
  | nil => simp [findUserFrom] at h
  | cons x xs ih =>
    unfold findUserFrom at h
    by_cases hx : x.Username = u
    · simp only [hx, if_true, Option.some.injEq] at h
      subst h
      simp [findUserFrom, ht]
    · simp only [hx, if_false] at h
      have hk := (findUserFrom_some xs u (k + 1) i h).1
      have he : i - k = (i - (k + 1)) + 1 := by omega
      rw [he, List.set_cons_succ]
      simp only [findUserFrom, hx, if_false]
      exact ih (k + 1) h

/-- After lookup-or-create, `findUser` returns the record pointer. -/
theorem getOrCreate_findUser (d : Data) (u : String) :
    (getOrCreate d u).1.findUser u = some (getOrCreate d u).2 := by
  cases h : d.findUser u with
  | none =>
    rw [getOrCreate_new d u h]
    have := findUserFrom_append_new d.Tokens u 0 { Username := u } h rfl
    simpa [Data.findUser] using this
  | some i =>
    rw [getOrCreate_found d u i h]
    exact h

/-- After lookup-or-create, the record pointer is in range and its record has
the username. -/
theorem getOrCreate_tok (d : Data) (u : String) :
    (getOrCreate d u).2 < (getOrCreate d u).1.Tokens.length ∧
      ((getOrCreate d u).1.tokAt (getOrCreate d u).2).Username = u :=
  findUser_some _ _ _ (getOrCreate_findUser d u)

/-- Writing back the record that was read changes nothing. -/
theorem set_tokAt_self (d : Data) (i : Nat) (h : i < d.Tokens.length) :
    d.Tokens.set i (d.tokAt i) = d.Tokens := by
  apply List.ext_getElem
  · simp
  · intro n h1 h2
    by_cases hn : i = n
    · subst hn
      simp [Data.tokAt, List.getD, h]
    · simp [List.getElem_set, hn]

/-- The store after a run with a resolved username: the store of
lookup-or-create with the pointed record replaced by one of the same username. -/
theorem GetToken_store_shape (env : Env) (p : Protocol) (request : TokenRequest)
    (huser : effectiveUser p request ≠ "") :
    ∃ t : TokenData, t.Username = effectiveUser p request ∧
      (p.GetToken env request).store =
        Data.mk (effectiveUser p request)
          ((getOrCreate p.Tokens (effectiveUser p request)).1.Tokens.set
            (getOrCreate p.Tokens (effectiveUser p request)).2 t) := by
  obtain ⟨hlt, hname⟩ := getOrCreate_tok p.Tokens (effectiveUser p request)
  have hlast := getOrCreate_last p.Tokens (effectiveUser p request)
  generalize hd : (getOrCreate p.Tokens (effectiveUser p request)).1 = d at *
  generalize hi : (getOrCreate p.Tokens (effectiveUser p request)).2 = i at *
  have hself : d = Data.mk (effectiveUser p request) (d.Tokens.set i (d.tokAt i)) := by
    rw [set_tokAt_self d i hlt, ← hlast]
  have hc := GetToken_cases env p request huser
  rw [hd, hi] at hc
  rcases hc with ⟨tr, _, hs, _⟩ | ⟨d1, tr, hr, _, hs, _⟩ | ⟨pre, _, hG⟩
  · exact ⟨d.tokAt i, hname, by rw [hs]; exact hself⟩
  · unfold Protocol.Refresh at hr
    simp only [] at hr
    split at hr
    · simp at hr
    · simp only [Except.ok.injEq] at hr
      refine ⟨_, ?_, by rw [hs, ← hr, hlast]⟩
      exact hname
  · rw [hG, after_store, fullAuth_eq_authToken]
    rcases hA : p.authToken env request (effectiveUser p request) with ⟨r, tr⟩
    cases r with
    | error f => exact ⟨d.tokAt i, hname, hself⟩
    | ok token =>
      simp only [storeToken]
      refine ⟨_, ?_, by rw [hlast]⟩
      exact hname

/-- Claim C11: when full authentication is run and obtains `token`, the store
afterwards has, at the position `findUser` returns for the effective username,
a record with that username and exactly the access token, refresh token and
type of `token`; `Last` is that username and the returned string is
`FormatToken` of that record. From an empty store, username `alice` and a
successful password grant, the store afterwards is exactly that one record. -/
theorem GetToken_fullAuth_success (env : Env) (p : Protocol) (request : TokenRequest)
    (token : OAuthToken) :
    (effectiveUser p request ≠ "" →
      (∃ e ∈ (p.GetToken env request).trace, e.isFullAuth = true) →
      (p.authToken env request (effectiveUser p request)).1 = .ok token →
      ∃ j, (p.GetToken env request).store.findUser (effectiveUser p request) = some j ∧
        (p.GetToken env request).store.tokAt j =
          TokenData.mk (effectiveUser p request) token.AccessToken token.RefreshToken
            token.TokenType ∧
        (p.GetToken env request).store.Last = effectiveUser p request ∧
        (p.GetToken env request).result =
          .ok (((p.GetToken env request).store.tokAt j).FormatToken request.Out)) ∧
      (p.Tokens.Tokens = [] → request.Username = "alice" →
        p.ConfigWithDefaults.PasswordGrant = true →
        env.passwordCredentialsToken p.oauthConf "alice" (grantPassword env request) = .ok token →
        (p.GetToken env request).store =
          Data.mk "alice"
            [TokenData.mk "alice" token.AccessToken token.RefreshToken token.TokenType]) := by
  constructor
  · intro huser hfull htoken
    obtain ⟨hlt, hname⟩ := getOrCreate_tok p.Tokens (effectiveUser p request)
    have hfind := getOrCreate_findUser p.Tokens (effectiveUser p request)
    have hlast := getOrCreate_last p.Tokens (effectiveUser p request)
    have hc := GetToken_cases env p request huser
    generalize hd : (getOrCreate p.Tokens (effectiveUser p request)).1 = d at *
    generalize hi : (getOrCreate p.Tokens (effectiveUser p request)).2 = i at *
    obtain ⟨e, he, hef⟩ := hfull
    rcases hc with ⟨tr, hn, _, ht⟩ | ⟨d1, tr, _, hn, _, ht⟩ | ⟨pre, _, hG⟩
    · rw [ht] at he
      rw [hn e he] at hef
      exact absurd hef (by decide)
    · rw [ht] at he
      rw [hn e he] at hef
      exact absurd hef (by decide)
    · rcases hA : p.authToken env request (effectiveUser p request) with ⟨r, tr⟩
      rw [hA] at htoken
      simp only at htoken
      subst htoken
      have hG2 : p.GetToken env request =
          (storeToken request d i token tr).after pre := by
        rw [hG, fullAuth_eq_authToken, hA]
      have hset : findUserFrom (d.Tokens.set (i - 0)
          (TokenData.mk (d.tokAt i).Username token.AccessToken token.RefreshToken
            token.TokenType)) (effectiveUser p request) 0 = some i :=
        findUserFrom_set d.Tokens _ 0 i _ hfind hname
      rw [hG2]
      refine ⟨i, ?_, ?_, ?_, ?_⟩
      · simpa [Outcome.after, storeToken, Data.findUser] using hset
      · simp [Outcome.after, storeToken, tokAt_set _ _ _ _ hlt, hname]
      · simp [Outcome.after, storeToken, hlast]
      · simp [Outcome.after, storeToken, tokAt_set _ _ _ _ hlt]
  · intro hempty hname hgrant hx
    have hu : effectiveUser p request = "alice" := by simp [effectiveUser, hname]
    have hg : getOrCreate p.Tokens "alice" = (Data.mk "alice" [{ Username := "alice" }], 0) := by
      simp [getOrCreate, Data.findUser, hempty, findUserFrom]
    unfold grantPassword at hx
    unfold Protocol.oauthConf at hx
    unfold Protocol.GetToken
    simp only [hu, hg]
    simp [Data.tokAt, Protocol.fullAuth, hgrant, hx, storeToken]

/-- Witness of `GetToken_fullAuth_success`: a password grant for `alice` on an
empty store, and an authorization-code login of `carol`. -/
theorem GetToken_fullAuth_success_witness :
    (({ Cfg := passwordCfg } : Protocol).GetToken sampleEnv { Username := "alice" }).store =
        Data.mk "alice" [TokenData.mk "alice" "new.jwt" "r9" "bearer"] ∧
      ∃ j, ((sampleProtocol codeCfg "old.jwt" "bad").GetToken sampleEnv
            { Username := "carol" }).store.findUser "carol" = some j ∧
        ((sampleProtocol codeCfg "old.jwt" "bad").GetToken sampleEnv
            { Username := "carol" }).store.tokAt j =
          TokenData.mk "carol" "new.jwt" "r9" "bearer" ∧
        ((sampleProtocol codeCfg "old.jwt" "bad").GetToken sampleEnv
            { Username := "carol" }).store.Last = "carol" ∧
        ((sampleProtocol codeCfg "old.jwt" "bad").GetToken sampleEnv
            { Username := "carol" }).result =
          .ok ((((sampleProtocol codeCfg "old.jwt" "bad").GetToken sampleEnv
            { Username := "carol" }).store.tokAt j).FormatToken 0) :=
  ⟨(GetToken_fullAuth_success sampleEnv { Cfg := passwordCfg } { Username := "alice" }
      (sampleToken "new.jwt" "r9")).2 rfl rfl rfl rfl,
    (GetToken_fullAuth_success sampleEnv (sampleProtocol codeCfg "old.jwt" "bad")
      { Username := "carol" } (sampleToken "new.jwt" "r9")).1 (by decide)
      ⟨.exchange "c0de", by decide, rfl⟩ rfl⟩

/-- Lookup-or-create keeps the records, or appends one empty record for a
username that had none. -/
theorem getOrCreate_usernames (d : Data) (u : String) :
    ((getOrCreate d u).1.Tokens = d.Tokens ∧ (getOrCreate d u).2 < d.Tokens.length) ∨
      (d.findUser u = none ∧ (getOrCreate d u).2 = d.Tokens.length ∧
        (getOrCreate d u).1.Tokens = d.Tokens ++ [({ Username := u } : TokenData)]) := by
  cases h : d.findUser u with
  | none =>
    right
    rw [getOrCreate_new d u h]
    exact ⟨rfl, rfl, rfl⟩
  | some i =>
    left
    rw [getOrCreate_found d u i h]
    exact ⟨rfl, (findUser_some d u i h).1⟩

/-- Replacing a record by one of the same username keeps the list of usernames. -/
theorem map_username_set (l : List TokenData) (i : Nat) (t : TokenData) (h : i < l.length)
    (ht : t.Username = (l.getD i {}).Username) :
    (l.set i t).map (fun x => x.Username) = l.map (fun x => x.Username) := by
  apply List.ext_getElem
  · simp
  · intro n h1 h2
    by_cases hn : i = n
    · subst hn
      simp [List.getD, h] at ht
      simp [ht]
    · simp [List.getElem_set, hn]

/-- Claim C12: pairwise distinct usernames stay pairwise distinct across any
`GetToken` call, whatever its outcome; and after a call that returns a
credential `Last` is non-empty and is the username of a record in the store. -/
theorem GetToken_store_invariant (env : Env) (p : Protocol) (request : TokenRequest) :
    ((p.Tokens.Tokens.map (fun x => x.Username)).Nodup →
        ((p.GetToken env request).store.Tokens.map (fun x => x.Username)).Nodup) ∧
      (∀ s, (p.GetToken env request).result = .ok s →
        (p.GetToken env request).store.Last ≠ "" ∧
          ∃ t ∈ (p.GetToken env request).store.Tokens,
            t.Username = (p.GetToken env request).store.Last) := by
  by_cases huser : effectiveUser p request = ""
  · have hG : p.GetToken env request = ⟨.error .missingUsername, p.Tokens, []⟩ := by
      unfold Protocol.GetToken
      simp [huser]
    rw [hG]
    exact ⟨fun h => h, fun s hs => by simp at hs⟩
  · obtain ⟨t, htn, hs⟩ := GetToken_store_shape env p request huser
    obtain ⟨hlt, hname⟩ := getOrCreate_tok p.Tokens (effectiveUser p request)
    have hshape := getOrCreate_usernames p.Tokens (effectiveUser p request)
    rw [hs]
    generalize hd : (getOrCreate p.Tokens (effectiveUser p request)).1 = d at *
    generalize hi : (getOrCreate p.Tokens (effectiveUser p request)).2 = i at *
    have hmap : (d.Tokens.set i t).map (fun x => x.Username) =
        d.Tokens.map (fun x => x.Username) :=
      map_username_set d.Tokens i t hlt (by rw [htn]; exact hname.symm)
    constructor
    · intro hnd
      simp only [hmap]
      rcases hshape with ⟨he, _⟩ | ⟨hnone, _, he⟩
      · rw [he]; exact hnd
      · rw [he, List.map_append]
        have hnot := findUserFrom_none p.Tokens.Tokens _ 0 hnone
        refine List.Nodup.append hnd (by simp) ?_
        intro a ha hb
        simp only [List.map_cons, List.map_nil, List.mem_singleton] at hb
        obtain ⟨x, hx, hxa⟩ := List.mem_map.1 ha
        exact hnot x hx (by rw [hxa, hb])
    · intro s _
      refine ⟨huser, t, ?_, htn⟩
      simp only
      exact List.mem_iff_getElem.2 ⟨i, by simpa using hlt, by simp⟩

/-- Claim C19: every record whose username differs from the effective username
is afterwards at the same position, unchanged; every record keeps its position
and its username; and the store grows by at most one record. -/
theorem GetToken_frame (env : Env) (p : Protocol) (request : TokenRequest) :
    (∀ (j : Nat) (t : TokenData), p.Tokens.Tokens[j]? = some t →
        t.Username ≠ effectiveUser p request →
        (p.GetToken env request).store.Tokens[j]? = some t) ∧
      (∀ (j : Nat) (t : TokenData), p.Tokens.Tokens[j]? = some t →
        ∃ t1 : TokenData, (p.GetToken env request).store.Tokens[j]? = some t1 ∧
          t1.Username = t.Username) ∧
      p.Tokens.Tokens.length ≤ (p.GetToken env request).store.Tokens.length ∧
      (p.GetToken env request).store.Tokens.length ≤ p.Tokens.Tokens.length + 1 := by
  by_cases huser : effectiveUser p request = ""
  · have hG : p.GetToken env request = ⟨.error .missingUsername, p.Tokens, []⟩ := by
      unfold Protocol.GetToken
      simp [huser]
    rw [hG]
    exact ⟨fun j t h _ => h, fun j t h => ⟨t, h, rfl⟩, le_refl _, Nat.le_succ _⟩
  · obtain ⟨t, htn, hs⟩ := GetToken_store_shape env p request huser
    obtain ⟨hlt, hname⟩ := getOrCreate_tok p.Tokens (effectiveUser p request)
    have hshape := getOrCreate_usernames p.Tokens (effectiveUser p request)
    rw [hs]
    generalize hd : (getOrCreate p.Tokens (effectiveUser p request)).1 = d at *
    generalize hi : (getOrCreate p.Tokens (effectiveUser p request)).2 = i at *
    simp only [List.length_set]
    have hkeep : ∀ (j : Nat) (t0 : TokenData), p.Tokens.Tokens[j]? = some t0 →
        d.Tokens[j]? = some t0 := by
      intro j t0 h0
      rcases hshape with ⟨he, _⟩ | ⟨_, _, he⟩
      · rw [he]; exact h0
      · rw [he]
        have hj : j < p.Tokens.Tokens.length := (List.getElem?_eq_some_iff.1 h0).1
        rw [List.getElem?_append_left hj]; exact h0
    refine ⟨?_, ?_, ?_, ?_⟩
    · intro j t0 h0 hne
      have hj := hkeep j t0 h0
      have hji : i ≠ j := by
        intro hij
        subst hij
        have : d.tokAt i = t0 := by simp [Data.tokAt, List.getD, hj]
        exact hne (by rw [← this]; exact hname)
      rw [List.getElem?_set_ne hji]; exact hj
    · intro j t0 h0
      have hj := hkeep j t0 h0
      by_cases hji : i = j
      · subst hji
        refine ⟨t, by simp [List.getElem?_set_self hlt], ?_⟩
        have : d.tokAt i = t0 := by simp [Data.tokAt, List.getD, hj]
        rw [htn, ← this]; exact hname.symm
      · exact ⟨t0, by rw [List.getElem?_set_ne hji]; exact hj, rfl⟩
    · rcases hshape with ⟨he, _⟩ | ⟨_, _, he⟩ <;> simp [he]
    · rcases hshape with ⟨he, _⟩ | ⟨_, _, he⟩ <;> simp [he]

/-- Witness of `GetToken_store_invariant`: a first login of `carol` next to
`bob` and `alice`. -/
theorem GetToken_store_invariant_witness :
    ((sampleProtocol passwordCfg "old.jwt" "bad").Tokens.Tokens.map
        (fun x => x.Username)).Nodup ∧
      (((sampleProtocol passwordCfg "old.jwt" "bad").GetToken sampleEnv
        { Username := "carol" }).store.Tokens.map (fun x => x.Username)).Nodup :=
  ⟨by decide,
    (GetToken_store_invariant sampleEnv (sampleProtocol passwordCfg "old.jwt" "bad")
      { Username := "carol" }).1 (by decide)⟩

/-- Witness of `GetToken_frame`: a refresh for `alice` leaves the record of
`bob` as it was. -/
theorem GetToken_frame_witness :
    (sampleProtocol passwordCfg "old.jwt" "r1").Tokens.Tokens[0]? =
        some { Username := "bob", AccessToken := "b.jwt" } ∧
      ((sampleProtocol passwordCfg "old.jwt" "r1").GetToken sampleEnv {}).store.Tokens[0]? =
        some { Username := "bob", AccessToken := "b.jwt" } :=
  ⟨rfl,
    (GetToken_frame sampleEnv (sampleProtocol passwordCfg "old.jwt" "r1") {}).1 0
      { Username := "bob", AccessToken := "b.jwt" } rfl (by decide)⟩

/-- Claim C17: with a policy other than `UseReAuth`, a non-empty stored access
token that parses, and a key lookup that fails, `Validate` ends in the fatal
server-info error instead of returning false, `GetToken` ends with that
error, and its only call is `Validate`: no refresh, no full authentication. -/
theorem GetToken_key_lookup_fatal (env : Env) (p : Protocol) (request : TokenRequest) (i : Nat)
    (token : JSONWebToken) (err : String)
    (huser : effectiveUser p request ≠ "")
    (hfind : p.Tokens.findUser (effectiveUser p request) = some i)
    (hpol : request.Refresh ≠ UseReAuth)
    (hacc : (p.Tokens.tokAt i).AccessToken ≠ "")
    (hparse : env.parseSigned (p.Tokens.tokAt i).AccessToken = some token)
    (hkey : env.getServerData p.ConfigWithDefaults.URL = .error err) :
    Validate env (p.Tokens.tokAt i).AccessToken p.ConfigWithDefaults.URL =
        .error (.serverInfo p.ConfigWithDefaults.URL err) ∧
      (p.GetToken env request).result = .error (.serverInfo p.ConfigWithDefaults.URL err) ∧
      (p.GetToken env request).trace =
        [.validate (p.Tokens.tokAt i).AccessToken p.ConfigWithDefaults.URL] ∧
      ∀ e ∈ (p.GetToken env request).trace, e.isRefresh = false ∧ e.isFullAuth = false := by
  have hV : Validate env (p.Tokens.tokAt i).AccessToken p.ConfigWithDefaults.URL =
      .error (.serverInfo p.ConfigWithDefaults.URL err) := by
    unfold Validate
    simp [hparse, hkey]
  have hG : p.GetToken env request =
      ⟨.error (.serverInfo p.ConfigWithDefaults.URL err),
        { p.Tokens with Last := effectiveUser p request },
        [.validate (p.Tokens.tokAt i).AccessToken p.ConfigWithDefaults.URL]⟩ := by
    unfold Protocol.GetToken
    simp only [huser, getOrCreate_found _ _ _ hfind, tokAt_withLast, hV]
    simp [hpol, hacc]
  rw [hG]
  refine ⟨hV, rfl, rfl, ?_⟩
  intro e he
  simp only [List.mem_singleton] at he
  subst he
  exact ⟨rfl, rfl⟩

/-- Witness of `GetToken_key_lookup_fatal`: the provider URL does not resolve. -/
theorem GetToken_key_lookup_fatal_witness :
    sampleEnv.getServerData "https://down.example" = .error "no such host" ∧
      ((sampleProtocol { passwordCfg with URL := "https://down.example" } "good.jwt"
        "r1").GetToken sampleEnv {}).result =
        .error (.serverInfo "https://down.example" "no such host") :=
  ⟨rfl,
    (GetToken_key_lookup_fatal sampleEnv
      (sampleProtocol { passwordCfg with URL := "https://down.example" } "good.jwt" "r1") {} 1
      ⟨"good.jwt"⟩ "no such host" (by decide) rfl (by decide) (by decide) rfl rfl).2.1⟩

/-- Claim C20: when the record of the effective username has an empty access
token (or the username has no record yet), `GetToken` is exactly the full
authentication, for every refresh policy and whatever refresh token is stored:
no call of `Validate` or `Refresh`. -/
theorem GetToken_empty_access_token (env : Env) (p : Protocol) (request : TokenRequest)
    (huser : effectiveUser p request ≠ "")
    (hacc : ∀ i, p.Tokens.findUser (effectiveUser p request) = some i →
      (p.Tokens.tokAt i).AccessToken = "") :
    p.GetToken env request =
        p.fullAuth env request (getOrCreate p.Tokens (effectiveUser p request)).1
          (getOrCreate p.Tokens (effectiveUser p request)).2 (effectiveUser p request) ∧
      (p.GetToken env request).trace ≠ [] ∧
      ∀ e ∈ (p.GetToken env request).trace,
        e.isValidate = false ∧ e.isRefresh = false ∧ e.isFullAuth = true := by
  have hempty : ((getOrCreate p.Tokens (effectiveUser p request)).1.tokAt
      (getOrCreate p.Tokens (effectiveUser p request)).2).AccessToken = "" := by
    cases hf : p.Tokens.findUser (effectiveUser p request) with
    | none =>
      rw [getOrCreate_new _ _ hf]
      simp [Data.tokAt, List.getD]
    | some i =>
      rw [getOrCreate_found _ _ _ hf, tokAt_withLast]
      exact hacc i hf
  have h : p.GetToken env request =
      p.fullAuth env request (getOrCreate p.Tokens (effectiveUser p request)).1
        (getOrCreate p.Tokens (effectiveUser p request)).2 (effectiveUser p request) := by
    unfold Protocol.GetToken
    simp [huser, hempty]
  refine ⟨h, ?_, ?_⟩
  · rw [h]; exact (fullAuth_trace env p request _ _ _).1
  · rw [h]
    intro e he
    have := (fullAuth_trace env p request _ _ _).2 e he
    cases e <;> simp_all [Event.isFullAuth, Event.isValidate, Event.isRefresh]

/-- Witness of `GetToken_empty_access_token`: `alice` holds refresh token `r1`
and no access token, and the request forces a refresh. -/
theorem GetToken_empty_access_token_witness :
    ((sampleProtocol passwordCfg "" "r1").Tokens.tokAt 1).RefreshToken = "r1" ∧
      ((sampleProtocol passwordCfg "" "r1").GetToken sampleEnv { Refresh := UseRefresh }).trace
        ≠ [] ∧
      ∀ e ∈ ((sampleProtocol passwordCfg "" "r1").GetToken sampleEnv
          { Refresh := UseRefresh }).trace,
        e.isValidate = false ∧ e.isRefresh = false ∧ e.isFullAuth = true :=
  ⟨rfl,
    (GetToken_empty_access_token sampleEnv (sampleProtocol passwordCfg "" "r1")
      { Refresh := UseRefresh } (by decide) (by
        intro i hi
        have h1 : i = 1 := by
          have h2 : (sampleProtocol passwordCfg "" "r1").Tokens.findUser
              (effectiveUser (sampleProtocol passwordCfg "" "r1") { Refresh := UseRefresh })
              = some 1 := rfl
          rw [h2] at hi
          exact (Option.some.inj hi).symm
        subst h1
        rfl)).2⟩


/-- Witness of `combine_eq_combineSpec`: the first endpoint of the
specification. -/
theorem combine_eq_combineSpec_witness :
    combine "https://idp.example/" "/protocol/token" =
      combineSpec "https://idp.example/" "/protocol/token" :=
  combine_eq_combineSpec "https://idp.example/" "/protocol/token" (by decide) (by decide)

end Took
